import Mathlib

/- Verification of migrate_component.py, a regex-driven one-shot source rewriter.

   The script reads one file, applies an ordered list of `str.replace` and
   `re.sub` passes, and writes the result back.  We embed file contents as
   `List Char` and each pass as an executable left-to-right scanner.

   The regexes used by the script have a very restricted shape: literal
   characters, `\s*` or `\s+` always followed by a non-whitespace literal,
   word boundaries `\b` around fixed literals, and greedy captures `[^}]+`,
   `{[^}]+}` or `[^']+` followed by fixed literal tails.  For such patterns
   Python's backtracking matcher is equivalent to the deterministic
   maximal-munch matcher implemented below:
   * `\s*` followed by a non-whitespace literal `c`: backtracking positions
     inside the whitespace run hold whitespace characters, which can never
     match `c`, so greedy maximal munch is complete;
   * `[^X]+` followed by `\X`: shrinking the run leaves a non-`X` character
     in front of `\X`, which fails, so the run is exactly the maximal run of
     non-`X` characters (when `\s*` directly precedes `[^}]+`, whitespace is
     also a non-`}` character; the interaction is reproduced in `capA`);
   `re.sub` and `str.replace` both replace non-overlapping matches scanning
   left to right, never rescanning replacement text, which is exactly what
   the fuel-indexed scanner `subF` does. -/

namespace MigrateComponent

abbrev Text := List Char

/-- Convert a string literal to our text representation. -/
def sl (s : String) : Text := s.toList

/-- Left brace character (written via its code point throughout). -/
def lbC : Char := Char.ofNat 123

/-- Right brace character. -/
def rbC : Char := Char.ofNat 125

/-- Apostrophe (single quote) character. -/
def qc : Char := Char.ofNat 39

/-- ASCII interpretation of the regex class `\s`. -/
def isWs (c : Char) : Bool :=
  c = ' ' || c = '\t' || c = '\n' || c = '\r' || c = '\x0b' || c = '\x0c'

/-- ASCII interpretation of the regex class `\w`, used for `\b`. -/
def isWord (c : Char) : Bool := c.isAlphanum || c = '_'

/-- True when a character is not a closing brace. -/
def notBrace (c : Char) : Bool := !(c = rbC)

/-- True when a character is not an apostrophe. -/
def notQuote (c : Char) : Bool := !(c = qc)

/-- One element of a capture-free regex: a literal character, `\s*`, or `\s+`. -/
inductive Atom where
  | lit (c : Char)
  | ws0
  | ws1
deriving DecidableEq, Repr

abbrev Pat := List Atom

/-- Literal atoms for a piece of text. -/
def lits (t : Text) : Pat := t.map Atom.lit

/-- One deterministic step of the capture-free matcher: consume exactly the
    character `c`, returning the remaining pattern. `\s*` stays on whitespace
    and otherwise defers to the following atom; `\s+` requires one whitespace
    character, then behaves like `\s*`. -/
def step : Pat → Char → Option Pat
  | [], _ => none
  | Atom.lit d :: ps, c => if c = d then some ps else none
  | Atom.ws0 :: ps, c => if isWs c then some (Atom.ws0 :: ps) else step ps c
  | Atom.ws1 :: ps, c => if isWs c then some (Atom.ws0 :: ps) else none

/-- Run a capture-free pattern at the head of the text; on success return the
    unconsumed remainder. -/
def mrun : Pat → Text → Option Text
  | [], s => some s
  | _ :: _, [] => none
  | p :: ps, c :: cs =>
    match step (p :: ps) c with
    | none => none
    | some ρ => mrun ρ cs

/-- Partial-run outcome on a text fragment: a definite mismatch, the pattern
    still alive at the end of the fragment, or a completed match. -/
inductive PRes where
  | fail
  | more (ρ : Pat)
  | hit (rest : Text)
deriving DecidableEq, Repr

/-- Run a capture-free pattern on a fragment, reporting whether it failed,
    is still alive, or completed. -/
def pran : Pat → Text → PRes
  | [], s => PRes.hit s
  | p :: ps, [] => PRes.more (p :: ps)
  | p :: ps, c :: cs =>
    match step (p :: ps) c with
    | none => PRes.fail
    | some ρ => pran ρ cs

/-- All patterns a single `step` can move to (independent of the character). -/
def stepTargets : Pat → List Pat
  | [] => []
  | Atom.lit _ :: ps => [ps]
  | Atom.ws0 :: ps => (Atom.ws0 :: ps) :: stepTargets ps
  | Atom.ws1 :: ps => [Atom.ws0 :: ps]

/-- A matcher takes the previous original character (for `\b`) and the text at
    the scan position; on success it yields the replacement, the last consumed
    original character, and the unconsumed remainder. -/
def Matcher := Option Char → Text → Option (Text × Char × Text)

/-- Fuel-indexed global substitution: at each position, either fire the
    matcher and emit its replacement, or copy one character, exactly like
    `re.sub` scanning an input left to right. The fuel only bounds the
    recursion; `runSub` supplies enough for any shrinking matcher. -/
def subF (m : Matcher) : Nat → Option Char → Text → Text
  | 0, _, s => s
  | _ + 1, _, [] => []
  | f + 1, pv, c :: cs =>
    match m pv (c :: cs) with
    | some (rep, lc, rest) => rep ++ subF m f (some lc) rest
    | none => c :: subF m f (some c) cs

/-- Apply one substitution pass to a whole text. -/
def runSub (m : Matcher) (s : Text) : Text := subF m s.length none s

/-- Scan for a match anywhere in the text (tracking the previous character). -/
def scanM (m : Matcher) : Option Char → Text → Bool
  | pv, [] => (m pv []).isSome
  | pv, c :: cs => (m pv (c :: cs)).isSome || scanM m (some c) cs

/-- Apply an ordered list of substitution passes. -/
def applyAll (ms : List Matcher) (s : Text) : Text :=
  ms.foldl (fun t m => runSub m t) s

/-- Matcher for `str.replace` with a literal needle. -/
def litM (find rep : Text) : Matcher := fun _ s =>
  if find.isPrefixOf s then some (rep, find.getLastD ' ', s.drop find.length)
  else none

/-- Matcher for a capture-free regex with a fixed replacement. -/
def patM (ρ : Pat) (rep : Text) : Matcher := fun _ s =>
  match mrun ρ s with
  | some rest => some (rep, ';', rest)
  | none => none

/-- Core of the word-boundary literal matcher (boundary before the needle
    already checked). -/
def wbCore (find rep : Text) (trailB : Bool) (s : Text) :
    Option (Text × Char × Text) :=
  if find.isPrefixOf s then
    let rest := s.drop find.length
    if trailB then
      match rest with
      | [] => some (rep, find.getLastD ' ', [])
      | d :: _ => if isWord d then none else some (rep, find.getLastD ' ', rest)
    else some (rep, find.getLastD ' ', rest)
  else none

/-- Matcher for `\b<find>\b` (or `\b<find>` when `trailB` is false) with a
    fixed replacement; `find` starts with a word character, so the leading
    boundary just requires the previous character to be a non-word one. -/
def wbM (find rep : Text) (trailB : Bool) : Matcher := fun pv s =>
  match pv with
  | some c => if isWord c then none else wbCore find rep trailB s
  | none => wbCore find rep trailB s

/-- Matcher for `<pre>\s*([^}]+)\}\);` where `pre` is capture-free. The
    capture is the maximal run of non-`}` characters minus the whitespace
    prefix claimed by the greedy `\s*` (which backs off to one character when
    the whole run is whitespace, as Python does). -/
def capA (pre : Pat) (mk : Text → Text) : Matcher := fun _ s =>
  match mrun pre s with
  | none => none
  | some r1 =>
    let R := r1.takeWhile notBrace
    if R.isEmpty then none
    else
      let r2 := r1.drop R.length
      if (sl "\x7d);").isPrefixOf r2 then
        let W := R.takeWhile isWs
        let cap := if W.length = R.length then R.drop (R.length - 1)
                   else R.drop W.length
        some (mk cap, ';', r2.drop 3)
      else none

/-- Matcher for `<pre>\s*({[^}]+})\s*\}\);` (with `midWs`) or
    `<pre>\s*({[^}]+})\}\);` (without). The capture includes its braces. -/
def capB (pre : Pat) (midWs : Bool) (mk : Text → Text) : Matcher := fun _ s =>
  match mrun pre s with
  | none => none
  | some r1 =>
    match r1.dropWhile isWs with
    | [] => none
    | c :: r3 =>
      if c = lbC then
        let X := r3.takeWhile notBrace
        if X.isEmpty then none
        else
          match r3.drop X.length with
          | [] => none
          | d :: r5 =>
            if d = rbC then
              let r6 := if midWs then r5.dropWhile isWs else r5
              if (sl "\x7d);").isPrefixOf r6 then
                some (mk (lbC :: (X ++ [rbC])), ';', r6.drop 3)
              else none
            else none
      else none

/-- Matcher for `<pre>\s*'([^']+)'\s*\}\);`; the capture is the quoted text. -/
def capC (pre : Pat) (mk : Text → Text) : Matcher := fun _ s =>
  match mrun pre s with
  | none => none
  | some r1 =>
    match r1.dropWhile isWs with
    | [] => none
    | c :: r3 =>
      if c = qc then
        let Y := r3.takeWhile notQuote
        if Y.isEmpty then none
        else
          match r3.drop Y.length with
          | [] => none
          | d :: r5 =>
            if d = qc then
              match r5.dropWhile isWs with
              | [] => none
              | e :: r6 =>
                if e = rbC then
                  if (sl ");").isPrefixOf r6 then some (mk Y, ';', r6.drop 2)
                  else none
                else none
            else none
      else none

/- The concrete patterns and replacements of migrate_component.py -/

/-- The legacy hook destructuring regex
    `const\s+{\s*state,\s*dispatch\s*}\s*=\s*useApp\(\);`. -/
def hookPat : Pat :=
  lits (sl "const") ++ [Atom.ws1, Atom.lit lbC, Atom.ws0] ++
  lits (sl "state,") ++ [Atom.ws0] ++ lits (sl "dispatch") ++
  [Atom.ws0, Atom.lit rbC, Atom.ws0, Atom.lit '=', Atom.ws0] ++
  lits (sl "useApp();")

/-- The capture-free prefix `dispatch\(\{\s*type:\s*'<ty>',\s*payload:` shared
    by the dispatch-call regexes. -/
def preP (ty : String) : Pat :=
  lits (sl "dispatch(") ++ [Atom.lit lbC, Atom.ws0] ++ lits (sl "type:") ++
  [Atom.ws0, Atom.lit qc] ++ lits (sl ty) ++ [Atom.lit qc, Atom.lit ','] ++
  [Atom.ws0] ++ lits (sl "payload:")

/-- The full pattern of the TOGGLE_QUICK_CAPTURE substitution
    `dispatch\(\{\s*type:\s*'TOGGLE_QUICK_CAPTURE'\s*\}\);`. -/
def togglePat : Pat :=
  lits (sl "dispatch(") ++ [Atom.lit lbC, Atom.ws0] ++ lits (sl "type:") ++
  [Atom.ws0, Atom.lit qc] ++ lits (sl "TOGGLE_QUICK_CAPTURE") ++
  [Atom.lit qc, Atom.ws0, Atom.lit rbC] ++ lits (sl ");")

/-- Literal needle of both import rewrites. -/
def importFind : Text :=
  sl "import \x7b useApp \x7d from '../context/AppContext';"

/-- Replacement of the SessionsZone import rewrite. -/
def importRepS : Text :=
  sl "import \x7b useSessions \x7d from '../context/SessionsContext';\nimport \x7b useUI \x7d from '../context/UIContext';"

/-- Replacement of the CaptureZone import rewrite. -/
def importRepC : Text :=
  sl "import \x7b useSettings \x7d from '../context/SettingsContext';\nimport \x7b useUI \x7d from '../context/UIContext';\nimport \x7b useEntities \x7d from '../context/EntitiesContext';\nimport \x7b useNotes \x7d from '../context/NotesContext';\nimport \x7b useTasks \x7d from '../context/TasksContext';\nimport \x7b useSessions \x7d from '../context/SessionsContext';"

/-- Replacement of the SessionsZone hook destructuring rewrite. -/
def hookRepS : Text :=
  sl "const \x7b sessions, activeSessionId, startSession, endSession, pauseSession, resumeSession, updateSession, deleteSession, addScreenshot, addAudioSegment \x7d = useSessions();\n  const \x7b state: uiState, dispatch: uiDispatch, addNotification \x7d = useUI();"

/-- Replacement of the CaptureZone hook destructuring rewrite. -/
def hookRepC : Text :=
  sl "const \x7b state: settingsState \x7d = useSettings();\n  const \x7b state: uiState, dispatch: uiDispatch, addNotification, addProcessingJob \x7d = useUI();\n  const \x7b state: entitiesState, addTopic \x7d = useEntities();\n  const \x7b addNote, updateNote \x7d = useNotes();\n  const \x7b addTask \x7d = useTasks();\n  const \x7b sessions \x7d = useSessions();"

/-- Replacement template for a simple method-call rewrite `name(\1);`. -/
def callRep (name : String) (cap : Text) : Text :=
  sl name ++ ('(' :: cap) ++ sl ");"

/-- Replacement template of the MARK_FEATURE_INTRODUCED rewrite. -/
def markRep (cap : Text) : Text :=
  sl "uiDispatch(\x7b type: 'MARK_FEATURE_INTRODUCED', payload: '" ++ cap ++
  sl "' \x7d);"

/-- Replacement template of the ADD_SESSION_SCREENSHOT / AUDIO rewrites,
    which splice the captured payload twice. -/
def dupRep (name : String) (cap : Text) : Text :=
  sl name ++ ('(' :: cap) ++ sl ".sessionId, " ++ cap ++ sl ");"

/-- Replacement template of the SET_ACTIVE_TAB rewrite. -/
def tabRep (cap : Text) : Text :=
  sl "uiDispatch(\x7b type: 'SET_ACTIVE_TAB', payload: " ++ cap ++ sl " \x7d);"

/-- Fixed replacement of the TOGGLE_QUICK_CAPTURE rewrite. -/
def toggleRep : Text :=
  sl "uiDispatch(\x7b type: 'TOGGLE_QUICK_CAPTURE' \x7d);"

/-- The ordered substitution passes of `migrate_sessions_zone`. -/
def sessionsPasses : List Matcher :=
  [ litM importFind importRepS,
    patM hookPat hookRepS,
    wbM (sl "state.sessions") (sl "sessions") true,
    wbM (sl "state.activeSessionId") (sl "activeSessionId") true,
    wbM (sl "state.ui.") (sl "uiState.") false,
    wbM (sl "state.onboarding") (sl "uiState.onboarding") true,
    capC (preP "MARK_FEATURE_INTRODUCED") markRep,
    capB (preP "ADD_NOTIFICATION") true (callRep "addNotification"),
    capA (preP "START_SESSION") (callRep "startSession"),
    capA (preP "END_SESSION") (callRep "endSession"),
    capA (preP "PAUSE_SESSION") (callRep "pauseSession"),
    capA (preP "RESUME_SESSION") (callRep "resumeSession"),
    capA (preP "UPDATE_SESSION") (callRep "updateSession"),
    capA (preP "DELETE_SESSION") (callRep "deleteSession"),
    capB (preP "ADD_SESSION_SCREENSHOT") false (dupRep "addScreenshot"),
    capB (preP "ADD_SESSION_AUDIO_SEGMENT") false (dupRep "addAudioSegment") ]

/-- The ordered substitution passes of `migrate_capture_zone`. -/
def capturePasses : List Matcher :=
  [ litM importFind importRepC,
    patM hookPat hookRepC,
    wbM (sl "state.aiSettings") (sl "settingsState.aiSettings") true,
    wbM (sl "state.userProfile") (sl "settingsState.userProfile") true,
    wbM (sl "state.nedSettings") (sl "settingsState.nedSettings") true,
    wbM (sl "state.ui.") (sl "uiState.") false,
    wbM (sl "state.quickCaptureOpen") (sl "uiState.quickCaptureOpen") true,
    wbM (sl "state.companies") (sl "entitiesState.companies") true,
    wbM (sl "state.contacts") (sl "entitiesState.contacts") true,
    wbM (sl "state.topics") (sl "entitiesState.topics") true,
    wbM (sl "state.notes") (sl "notesState.notes") true,
    wbM (sl "state.tasks") (sl "tasksState.tasks") true,
    wbM (sl "state.sessions") (sl "sessions") true,
    capB (preP "ADD_NOTIFICATION") true (callRep "addNotification"),
    capB (preP "ADD_PROCESSING_JOB") true (callRep "addProcessingJob"),
    capA (preP "ADD_TOPIC") (callRep "addTopic"),
    capA (preP "ADD_NOTE") (callRep "addNote"),
    capA (preP "UPDATE_NOTE") (callRep "updateNote"),
    capA (preP "ADD_TASK") (callRep "addTask"),
    patM togglePat toggleRep,
    capA (preP "SET_ACTIVE_TAB") tabRep ]

/-- Pure text transformation of `migrate_sessions_zone`. -/
def migrate_sessions_text (s : Text) : Text := applyAll sessionsPasses s

/-- Pure text transformation of `migrate_capture_zone`. -/
def migrate_capture_text (s : Text) : Text := applyAll capturePasses s

/-- Substring test: does `pat` occur inside the second text? -/
def containsT (pat : Text) : Text → Bool
  | [] => pat.isPrefixOf []
  | c :: cs => pat.isPrefixOf (c :: cs) || containsT pat cs

/- File-system and CLI model.  The script hardcodes one path per component,
   reads it fully, transforms, writes back, and prints one message; a missing
   argument or unknown component prints usage and exits 1 without touching
   any file; a read failure aborts before the file is opened for writing. -/

/-- A file system: a partial map from paths to contents. -/
abbrev FS := String → Option Text

/-- Point update of a file system. -/
def fsWrite (fs : FS) (p : String) (v : Text) : FS :=
  fun q => if q = p then some v else fs q

/-- Observable outcome of a process run: final file system, exit code,
    stdout lines, attempted reads and performed writes. -/
structure Outcome where
  fs : FS
  exitCode : Nat
  stdout : List String
  reads : List String
  writes : List String

/-- Hardcoded target path of the SessionsZone migration. -/
def sessionsPath : String :=
  "/Users/jamesmcarthur/Documents/taskerino/src/components/SessionsZone.tsx"

/-- Hardcoded target path of the CaptureZone migration. -/
def capturePath : String :=
  "/Users/jamesmcarthur/Documents/taskerino/src/components/CaptureZone.tsx"

/-- Read a file, transform it, write it back, print the success message; a
    failing read raises before the file is ever opened for writing, so the
    file system is returned unchanged with a nonzero exit code. -/
def migrateFile (textF : Text → Text) (path : String) (fs : FS) : Outcome :=
  match fs path with
  | none => ⟨fs, 1, [], [path], []⟩
  | some content =>
      ⟨fsWrite fs path (textF content), 0, ["✅ Migrated " ++ path],
        [path], [path]⟩

/-- The `migrate_sessions_zone` operation at the file level. -/
def migrate_sessions_zone (fs : FS) : Outcome :=
  migrateFile migrate_sessions_text sessionsPath fs

/-- The `migrate_capture_zone` operation at the file level. -/
def migrate_capture_zone (fs : FS) : Outcome :=
  migrateFile migrate_capture_text capturePath fs

/-- The `__main__` block: `argv` includes the script name at position 0. -/
def mainEntry (argv : List String) (fs : FS) : Outcome :=
  match argv with
  | _ :: comp :: _ =>
    if comp = "SessionsZone" then migrate_sessions_zone fs
    else if comp = "CaptureZone" then migrate_capture_zone fs
    else ⟨fs, 1, ["Unknown component: " ++ comp,
                  "Supported components: SessionsZone, CaptureZone"], [], []⟩
  | _ => ⟨fs, 1, ["Usage: python3 migrate_component.py <component_name>",
                  "Example: python3 migrate_component.py SessionsZone"], [], []⟩

/- Concrete fixtures used by individual claims. -/

/-- Minimal fixture of the spec: a single legacy ADD_NOTE dispatch call. -/
def fixAddNote : Text := sl "dispatch(\x7b type: 'ADD_NOTE', payload: noteObj \x7d);"

/-- A SessionsZone input whose START_SESSION payload capture itself contains
    a legacy dispatch prefix; it defeats idempotence of the second run. -/
def fixNested : Text :=
  sl "dispatch(\x7b type: 'START_SESSION', payload: dispatch(\x7b type: 'START_SESSION', payload: y\x7d);z\x7d);"

/-- An object literal payload `{x}`. -/
def braced (x : Text) : Text := lbC :: (x ++ [rbC])

/-- Fixture: a single ADD_SESSION_SCREENSHOT dispatch call with payload `{x}`. -/
def scrFix (x : Text) : Text :=
  sl "dispatch(\x7b type: 'ADD_SESSION_SCREENSHOT', payload: " ++
  (braced x ++ sl "\x7d);")

/-- Fixture: a single ADD_SESSION_AUDIO_SEGMENT dispatch call with payload `{x}`. -/
def audFix (x : Text) : Text :=
  sl "dispatch(\x7b type: 'ADD_SESSION_AUDIO_SEGMENT', payload: " ++
  (braced x ++ sl "\x7d);")

/-- A file system with both hardcoded target files present. -/
def fsBoth : FS := fun q =>
  if q = sessionsPath then some (sl "const x = 1;")
  else if q = capturePath then some (sl "let y = 2;")
  else none

/-- The empty file system. -/
def fsNone : FS := fun _ => none

/- Notions used by the universal theorems about the hook pattern. -/

/-- Does a capture-free pattern match at some position of the text? -/
def scanHit (ρ : Pat) : Text → Bool
  | [] => (mrun ρ []).isSome
  | c :: cs => (mrun ρ (c :: cs)).isSome || scanHit ρ cs

/-- All matcher states reachable while running `hookPat`: its nonempty
    suffixes together with the `\s*` downgrades of its `\s+` suffixes. -/
def states : List Pat :=
  hookPat.tails.filter (fun ρ => !ρ.isEmpty) ++
  hookPat.tails.filterMap (fun ρ =>
    match ρ with
    | Atom.ws1 :: ps => some (Atom.ws0 :: ps)
    | _ => none)

/-- A pattern that still has the literal `}` ahead of it.  While a matcher in
    such a state consumes only non-`}` characters it can never complete. -/
def hasBrace (ρ : Pat) : Prop := Atom.lit rbC ∈ ρ

instance : DecidablePred hasBrace := fun ρ =>
  inferInstanceAs (Decidable (Atom.lit rbC ∈ ρ))

/-- No pass of the list fires anywhere on the text. -/
def noFire (ms : List Matcher) (s : Text) : Prop :=
  ∀ m ∈ ms, scanM m none s = false

instance (ms : List Matcher) (s : Text) : Decidable (noFire ms s) :=
  inferInstanceAs (Decidable (∀ m ∈ ms, scanM m none s = false))

/-- A matcher only ever consumes a nonempty prefix: the remainder is a
    strictly shorter suffix of the input. -/
def Tame (m : Matcher) : Prop :=
  ∀ pv s rep lc rest, m pv s = some (rep, lc, rest) →
    rest.length < s.length ∧ rest <:+ s

/- Basic lemmas about the substitution engine. -/

theorem subF_nil (m : Matcher) (f : Nat) (pv : Option Char) :
    subF m f pv [] = [] := by
  cases f <;> rfl

theorem scanM_false_subF (m : Matcher) :
    ∀ (f : Nat) (pv : Option Char) (s : Text),
      scanM m pv s = false → subF m f pv s = s := by
  intro f
  induction f with
  | zero => intro pv s _; rfl
  | succ f ih =>
    intro pv s h
    cases s with
    | nil => rfl
    | cons c cs =>
      have h' := h
      simp only [scanM, Bool.or_eq_false_iff] at h'
      obtain ⟨h1, h2⟩ := h'
      have hm : m pv (c :: cs) = none := by
        cases hmm : m pv (c :: cs) with
        | none => rfl
        | some q => rw [hmm] at h1; simp at h1
      simp only [subF, hm]
      rw [ih (some c) cs h2]

theorem scanM_false_runSub (m : Matcher) (s : Text)
    (h : scanM m none s = false) : runSub m s = s :=
  scanM_false_subF m s.length none s h

theorem noFire_applyAll (ms : List Matcher) (s : Text)
    (h : noFire ms s) : applyAll ms s = s := by
  induction ms with
  | nil => rfl
  | cons m ms ih =>
    have hm : runSub m s = s :=
      scanM_false_runSub m s (h m (List.mem_cons_self m ms))
    have hms : noFire ms s := fun m' hm' => h m' (List.mem_cons_of_mem m hm')
    simp only [applyAll, List.foldl_cons, hm]
    exact ih hms

/- Lemmas about the capture-free matcher. -/

theorem pran_cons_eq (p : Atom) (ps : Pat) (c : Char) (cs : Text) :
    pran (p :: ps) (c :: cs) =
      (match step (p :: ps) c with
        | none => PRes.fail
        | some ρ => pran ρ cs) := rfl

theorem mrun_cons_eq (p : Atom) (ps : Pat) (c : Char) (cs : Text) :
    mrun (p :: ps) (c :: cs) =
      (match step (p :: ps) c with
        | none => none
        | some ρ => mrun ρ cs) := rfl

theorem step_targets_mem :
    ∀ (ρ : Pat) {c : Char} {ρ' : Pat}, step ρ c = some ρ' → ρ' ∈ stepTargets ρ := by
  intro ρ
  induction ρ with
  | nil => intro c ρ' h; simp [step] at h
  | cons p ps ih =>
    intro c ρ' h
    cases p with
    | lit d =>
      by_cases hc : c = d
      · simp [step, hc] at h
        simp [stepTargets, ← h]
      · simp [step, hc] at h
    | ws0 =>
      by_cases hw : isWs c
      · simp [step, hw] at h
        simp [stepTargets, ← h]
      · simp [step, hw] at h
        exact List.mem_cons_of_mem _ (ih h)
    | ws1 =>
      by_cases hw : isWs c
      · simp [step, hw] at h
        simp [stepTargets, ← h]
      · simp [step, hw] at h

theorem mrun_eq_of_pran :
    ∀ (s : Text) (ρ : Pat),
      mrun ρ s =
        (match pran ρ s with
          | PRes.hit r => some r
          | _ => none) := by
  intro s
  induction s with
  | nil =>
    intro ρ
    cases ρ with
    | nil => rfl
    | cons p ps => rfl
  | cons c cs ih =>
    intro ρ
    cases ρ with
    | nil => rfl
    | cons p ps =>
      rw [mrun_cons_eq, pran_cons_eq]
      cases h : step (p :: ps) c with
      | none => rfl
      | some ρ' => simpa using ih ρ'

theorem pran_append :
    ∀ (b : Text) (ρ : Pat) (r : Text),
      pran ρ (b ++ r) =
        (match pran ρ b with
          | PRes.fail => PRes.fail
          | PRes.more ρ' => pran ρ' r
          | PRes.hit _ => pran ρ (b ++ r)) := by
  intro b
  induction b with
  | nil =>
    intro ρ r
    cases ρ with
    | nil => rfl
    | cons p ps => rfl
  | cons c bs ih =>
    intro ρ r
    cases ρ with
    | nil => rfl
    | cons p ps =>
      rw [List.cons_append, pran_cons_eq, pran_cons_eq]
      cases h : step (p :: ps) c with
      | none => rfl
      | some ρ' => simpa using ih ρ' r

theorem pran_append_hit :
    ∀ (b : Text) (ρ : Pat) (r rest : Text),
      pran ρ b = PRes.hit rest → pran ρ (b ++ r) = PRes.hit (rest ++ r) := by
  intro b
  induction b with
  | nil =>
    intro ρ r rest h
    cases ρ with
    | nil =>
      simp [pran] at h
      simp [pran, h]
    | cons p ps => simp [pran] at h
  | cons c bs ih =>
    intro ρ r rest h
    cases ρ with
    | nil =>
      simp [pran] at h
      subst h
      rfl
    | cons p ps =>
      rw [pran_cons_eq] at h
      rw [List.cons_append, pran_cons_eq]
      cases hs : step (p :: ps) c with
      | none => rw [hs] at h; simp at h
      | some ρ' =>
        rw [hs] at h
        simp at h ⊢
        exact ih ρ' r rest h

theorem pran_append_fail (b : Text) (ρ : Pat) (r : Text)
    (h : pran ρ b = PRes.fail) : pran ρ (b ++ r) = PRes.fail := by
  rw [pran_append b ρ r, h]

theorem pran_append_more (b : Text) (ρ ρ' : Pat) (r : Text)
    (h : pran ρ b = PRes.more ρ') : pran ρ (b ++ r) = pran ρ' r := by
  rw [pran_append b ρ r, h]

theorem mrun_none_of_pran_fail (b : Text) (ρ : Pat) (r : Text)
    (h : pran ρ b = PRes.fail) : mrun ρ (b ++ r) = none := by
  rw [mrun_eq_of_pran, pran_append_fail b ρ r h]

theorem mrun_shrinks :
    ∀ (s : Text) (ρ : Pat) (r : Text), ρ ≠ [] → mrun ρ s = some r →
      r.length < s.length ∧ r <:+ s := by
  intro s
  induction s with
  | nil =>
    intro ρ r hne h
    cases ρ with
    | nil => exact absurd rfl hne
    | cons p ps => simp [mrun] at h
  | cons c cs ih =>
    intro ρ r hne h
    cases ρ with
    | nil => exact absurd rfl hne
    | cons p ps =>
      rw [mrun_cons_eq] at h
      cases hs : step (p :: ps) c with
      | none => rw [hs] at h; simp at h
      | some ρ' =>
        rw [hs] at h
        simp at h
        cases hρ' : ρ' with
        | nil =>
          rw [hρ'] at h
          simp [mrun] at h
          subst h
          exact ⟨by simp, List.suffix_cons c cs⟩
        | cons q qs =>
          rw [hρ'] at h
          have := ih (q :: qs) r (by simp) h
          exact ⟨Nat.lt_trans this.1 (by simp),
            this.2.trans (List.suffix_cons c cs)⟩

/- Facts about the reachable matcher states of the hook pattern. -/

theorem hookPat_mem_states : hookPat ∈ states := by decide

theorem hookPat_hasBrace : hasBrace hookPat := by decide

theorem hookPat_ne_nil : hookPat ≠ [] := by decide

theorem states_ne_nil : ∀ ρ ∈ states, ρ ≠ [] := by decide

set_option maxRecDepth 40000 in
theorem states_closed :
    ∀ ρ ∈ states, ∀ τ ∈ stepTargets ρ, τ = [] ∨ τ ∈ states := by decide

theorem step_mem_states {ρ ρ' : Pat} {c : Char} (hρ : ρ ∈ states)
    (h : step ρ c = some ρ') : ρ' = [] ∨ ρ' ∈ states :=
  states_closed ρ hρ ρ' (step_targets_mem ρ h)

theorem step_hasBrace :
    ∀ (ρ : Pat) {c : Char} {ρ' : Pat}, hasBrace ρ → notBrace c = true →
      step ρ c = some ρ' → hasBrace ρ' := by
  intro ρ
  induction ρ with
  | nil => intro c ρ' _ _ h; simp [step] at h
  | cons p ps ih =>
    intro c ρ' hbr hnb h
    cases p with
    | lit d =>
      by_cases hc : c = d
      · simp [step, hc] at h
        subst h
        rcases List.mem_cons.mp hbr with h1 | h1
        · exfalso
          have hd : d = rbC := by
            have := h1.symm
            injection this
          rw [hc, hd] at hnb
          simp [notBrace] at hnb
        · exact h1
      · simp [step, hc] at h
    | ws0 =>
      by_cases hw : isWs c
      · simp [step, hw] at h
        subst h
        exact hbr
      · simp [step, hw] at h
        have hbr' : hasBrace ps := by
          rcases List.mem_cons.mp hbr with h1 | h1
          · simp at h1
          · exact h1
        exact ih hbr' hnb h
    | ws1 =>
      by_cases hw : isWs c
      · simp [step, hw] at h
        subst h
        rcases List.mem_cons.mp hbr with h1 | h1
        · simp at h1
        · exact List.mem_cons_of_mem _ h1
      · simp [step, hw] at h

theorem hasBrace_ne_nil {ρ : Pat} (h : hasBrace ρ) : ρ ≠ [] := by
  intro hρ
  rw [hρ] at h
  simp [hasBrace] at h

theorem pran_hasBrace :
    ∀ (xs : Text) (ρ : Pat), ρ ∈ states → hasBrace ρ →
      (∀ c ∈ xs, notBrace c = true) →
      pran ρ xs = PRes.fail ∨
        ∃ ρ', pran ρ xs = PRes.more ρ' ∧ ρ' ∈ states ∧ hasBrace ρ' := by
  intro xs
  induction xs with
  | nil =>
    intro ρ hρ hbr _
    right
    refine ⟨ρ, ?_, hρ, hbr⟩
    cases ρ with
    | nil => exact absurd rfl (hasBrace_ne_nil hbr)
    | cons p ps => rfl
  | cons c cs ih =>
    intro ρ hρ hbr hnb
    cases hρnil : ρ with
    | nil => exact absurd hρnil (hasBrace_ne_nil hbr)
    | cons p ps =>
      rw [← hρnil]
      have hcons : pran ρ (c :: cs) =
          (match step ρ c with
            | none => PRes.fail
            | some ρ'' => pran ρ'' cs) := by
        rw [hρnil]; rfl
      cases hs : step ρ c with
      | none => left; rw [hcons, hs]
      | some ρ'' =>
        have hnbc : notBrace c = true := hnb c (List.mem_cons_self c cs)
        have hbr'' : hasBrace ρ'' := step_hasBrace ρ hbr hnbc hs
        have hmem : ρ'' ∈ states := by
          rcases step_mem_states hρ hs with h1 | h1
          · exact absurd h1 (hasBrace_ne_nil hbr'')
          · exact h1
        have hrec := ih ρ'' hmem hbr''
          (fun d hd => hnb d (List.mem_cons_of_mem c hd))
        rw [hcons, hs]
        simpa using hrec

theorem pran_more_mem :
    ∀ (xs : Text) (ρ ρ' : Pat), ρ ∈ states → pran ρ xs = PRes.more ρ' →
      ρ' ∈ states := by
  intro xs
  induction xs with
  | nil =>
    intro ρ ρ' hρ h
    cases ρ with
    | nil => simp [pran] at h
    | cons p ps =>
      simp [pran] at h
      rw [← h]
      exact hρ
  | cons c cs ih =>
    intro ρ ρ' hρ h
    cases ρ with
    | nil => simp [pran] at h
    | cons p ps =>
      rw [pran_cons_eq] at h
      cases hs : step (p :: ps) c with
      | none => rw [hs] at h; simp at h
      | some ρ'' =>
        rw [hs] at h
        simp at h
        cases hρ'' : ρ'' with
        | nil =>
          rw [hρ''] at h
          cases cs <;> simp [pran] at h
        | cons q qs =>
          have hmem : ρ'' ∈ states := by
            rcases step_mem_states hρ hs with h1 | h1
            · rw [hρ''] at h1; simp at h1
            · exact h1
          exact ih ρ'' ρ' hmem h

theorem pran_step_none (ρ : Pat) (c : Char) (cs : Text) (hne : ρ ≠ [])
    (hs : step ρ c = none) : pran ρ (c :: cs) = PRes.fail := by
  cases ρ with
  | nil => exact absurd rfl hne
  | cons p ps => rw [pran_cons_eq, hs]

/- Suffix decomposition helpers. -/

theorem suffix_split :
    ∀ (u v b : Text), b <:+ (u ++ v) →
      b <:+ v ∨ ∃ b₁, b₁ ≠ [] ∧ b₁ <:+ u ∧ b = b₁ ++ v := by
  intro u
  induction u with
  | nil => intro v b h; exact Or.inl (by simpa using h)
  | cons a u' ih =>
    intro v b h
    rw [List.cons_append] at h
    rcases List.suffix_cons_iff.mp h with h1 | h1
    · right
      exact ⟨a :: u', by simp, List.suffix_refl _, by simpa using h1⟩
    · rcases ih v b h1 with h2 | ⟨b₁, hb₁, hsuf, heq⟩
      · exact Or.inl h2
      · exact Or.inr ⟨b₁, hb₁, hsuf.trans (List.suffix_cons a u'), heq⟩

theorem suffix_singleton {b : Text} {a : Char} (hne : b ≠ [])
    (h : b <:+ [a]) : b = [a] := by
  rcases List.suffix_cons_iff.mp h with h1 | h1
  · exact h1
  · exact absurd (List.suffix_nil.mp h1) hne

/- Lemmas about `scanHit`. -/

theorem option_isSome_false_iff {α : Type} (o : Option α) :
    o.isSome = false ↔ o = none := by cases o <;> simp

theorem scanHit_cons_false_iff (ρ : Pat) (c : Char) (cs : Text) :
    scanHit ρ (c :: cs) = false ↔
      mrun ρ (c :: cs) = none ∧ scanHit ρ cs = false := by
  simp [scanHit, option_isSome_false_iff]

theorem scanHit_true_of_mrun (ρ : Pat) (u : Text) (h : mrun ρ u ≠ none) :
    scanHit ρ u = true := by
  cases u with
  | nil =>
    simp [scanHit]
    cases hu : mrun ρ [] with
    | none => exact absurd hu h
    | some r => simp
  | cons c cs =>
    simp [scanHit]
    cases hm : mrun ρ (c :: cs) with
    | none => exact absurd hm h
    | some r => left; simp [hm]

theorem scanHit_drop_prefix (ρ : Pat) :
    ∀ (u t : Text), scanHit ρ (u ++ t) = false → scanHit ρ t = false := by
  intro u
  induction u with
  | nil => intro t h; simpa using h
  | cons a u' ih =>
    intro t h
    rw [List.cons_append] at h
    exact ih t ((scanHit_cons_false_iff ρ a (u' ++ t)).mp h).2

theorem scanHit_suffix {ρ : Pat} {s t : Text} (h : scanHit ρ s = false)
    (hsuf : t <:+ s) : scanHit ρ t = false := by
  obtain ⟨u, rfl⟩ := hsuf
  exact scanHit_drop_prefix ρ u t h

theorem scanHit_append (ρ₀ : Pat) :
    ∀ (a t : Text),
      (∀ b, b ≠ [] → b <:+ a → mrun ρ₀ (b ++ t) = none) →
      scanHit ρ₀ t = false → scanHit ρ₀ (a ++ t) = false := by
  intro a
  induction a with
  | nil => intro t _ h; simpa using h
  | cons c a' ih =>
    intro t hb ht
    rw [List.cons_append, scanHit_cons_false_iff]
    constructor
    · have := hb (c :: a') (by simp) (List.suffix_refl _)
      simpa using this
    · exact ih t
        (fun b hbne hbsuf => hb b hbne (hbsuf.trans (List.suffix_cons c a')))
        ht

/- Universal engine theorems: a pass whose replacements kill every live
   matcher state can never create an occurrence of the hook pattern, and the
   hook pass itself removes every occurrence. -/

theorem mrun_subF_none (m : Matcher)
    (HB : ∀ pv s rep lc rest, m pv s = some (rep, lc, rest) →
      ∀ ρ ∈ states, pran ρ rep = PRes.fail) :
    ∀ (f : Nat) (pv : Option Char) (s : Text) (ρ : Pat), ρ ∈ states →
      s.length ≤ f → mrun ρ s = none → mrun ρ (subF m f pv s) = none := by
  intro f
  induction f with
  | zero =>
    intro pv s ρ hρ hlen hnone
    have hs : s = [] := List.length_eq_zero.mp (Nat.le_zero.mp hlen)
    subst hs
    exact hnone
  | succ f ih =>
    intro pv s ρ hρ hlen hnone
    cases s with
    | nil => exact hnone
    | cons c cs =>
      cases hm : m pv (c :: cs) with
      | some q =>
        obtain ⟨rep, lc, rest⟩ := q
        have hfail : pran ρ rep = PRes.fail := HB pv (c :: cs) rep lc rest hm ρ hρ
        simp only [subF, hm]
        exact mrun_none_of_pran_fail rep ρ _ hfail
      | none =>
        simp only [subF, hm]
        cases hρnil : ρ with
        | nil => exact absurd hρnil (states_ne_nil ρ hρ)
        | cons p ps =>
          rw [← hρnil]
          have hcons : ∀ t : Text, mrun ρ (c :: t) =
              (match step ρ c with
                | none => none
                | some ρ'' => mrun ρ'' t) := by
            intro t; rw [hρnil]; rfl
          cases hs : step ρ c with
          | none => rw [hcons, hs]
          | some ρ'' =>
            rw [hcons, hs]
            have hnone' : mrun ρ'' cs = none := by
              rw [hcons, hs] at hnone
              exact hnone
            have hne : ρ'' ≠ [] := by
              intro hnil
              rw [hnil] at hnone'
              simp [mrun] at hnone'
            have hmem : ρ'' ∈ states := by
              rcases step_mem_states hρ hs with h1 | h1
              · exact absurd h1 hne
              · exact h1
            exact ih (some c) cs ρ'' hmem (by simpa using hlen) hnone'

theorem patM_none_mrun {ρ₀ : Pat} {rep0 : Text} {pv : Option Char} {s : Text}
    (h : patM ρ₀ rep0 pv s = none) : mrun ρ₀ s = none := by
  unfold patM at h
  cases hm : mrun ρ₀ s with
  | none => rfl
  | some r => rw [hm] at h; simp at h

theorem patM_some {ρ₀ : Pat} {rep0 : Text} {pv : Option Char} {s : Text}
    {rep : Text} {lc : Char} {rest : Text}
    (h : patM ρ₀ rep0 pv s = some (rep, lc, rest)) :
    rep = rep0 ∧ mrun ρ₀ s = some rest := by
  unfold patM at h
  cases hm : mrun ρ₀ s with
  | none => rw [hm] at h; simp at h
  | some r =>
    rw [hm] at h
    simp at h
    exact ⟨h.1.symm, by rw [h.2.2]⟩

theorem scanHit_subF_hook (rep0 : Text)
    (H2 : ∀ b, b ≠ [] → b <:+ rep0 → pran hookPat b = PRes.fail)
    (HB : ∀ ρ ∈ states, pran ρ rep0 = PRes.fail) :
    ∀ (f : Nat) (pv : Option Char) (s : Text), s.length ≤ f →
      scanHit hookPat (subF (patM hookPat rep0) f pv s) = false := by
  have HBm : ∀ pv s rep lc rest,
      patM hookPat rep0 pv s = some (rep, lc, rest) →
      ∀ ρ ∈ states, pran ρ rep = PRes.fail := by
    intro pv s rep lc rest hm ρ hρ
    rw [(patM_some hm).1]
    exact HB ρ hρ
  intro f
  induction f with
  | zero =>
    intro pv s hlen
    have hs : s = [] := List.length_eq_zero.mp (Nat.le_zero.mp hlen)
    subst hs
    rw [subF_nil]
    decide
  | succ f ih =>
    intro pv s hlen
    cases s with
    | nil =>
      rw [subF_nil]
      decide
    | cons c cs =>
      cases hm : patM hookPat rep0 pv (c :: cs) with
      | some q =>
        obtain ⟨rep, lc, rest⟩ := q
        obtain ⟨hrep, hmr⟩ := patM_some hm
        subst hrep
        have hshr := mrun_shrinks (c :: cs) hookPat rest hookPat_ne_nil hmr
        simp only [subF, hm]
        apply scanHit_append hookPat
        · intro b hbne hbsuf
          exact mrun_none_of_pran_fail b hookPat _ (H2 b hbne hbsuf)
        · exact ih (some lc) rest (by omega)
      | none =>
        have hnone : mrun hookPat (c :: cs) = none := patM_none_mrun hm
        have hall : mrun hookPat
            (subF (patM hookPat rep0) (f + 1) pv (c :: cs)) = none :=
          mrun_subF_none (patM hookPat rep0) HBm (f + 1) pv (c :: cs) hookPat
            hookPat_mem_states hlen hnone
        simp only [subF, hm] at hall ⊢
        rw [scanHit_cons_false_iff]
        exact ⟨hall, ih (some c) cs (by simpa using hlen)⟩

theorem scanHit_subF_pres (m : Matcher) (Htame : Tame m)
    (HB : ∀ pv s rep lc rest, m pv s = some (rep, lc, rest) →
      ∀ ρ ∈ states, pran ρ rep = PRes.fail)
    (H3 : ∀ pv s rep lc rest, m pv s = some (rep, lc, rest) →
      scanHit hookPat s = false →
      ∀ b, b ≠ [] → b <:+ rep → ∀ t, mrun hookPat (b ++ t) = none) :
    ∀ (f : Nat) (pv : Option Char) (s : Text), s.length ≤ f →
      scanHit hookPat s = false →
      scanHit hookPat (subF m f pv s) = false := by
  intro f
  induction f with
  | zero =>
    intro pv s hlen hs
    have : s = [] := List.length_eq_zero.mp (Nat.le_zero.mp hlen)
    subst this
    exact hs
  | succ f ih =>
    intro pv s hlen hs
    cases s with
    | nil => exact hs
    | cons c cs =>
      cases hm : m pv (c :: cs) with
      | some q =>
        obtain ⟨rep, lc, rest⟩ := q
        obtain ⟨hlt, hsuf⟩ := Htame pv (c :: cs) rep lc rest hm
        simp only [subF, hm]
        apply scanHit_append hookPat
        · intro b hbne hbsuf
          exact H3 pv (c :: cs) rep lc rest hm hs b hbne hbsuf _
        · exact ih (some lc) rest (by omega) (scanHit_suffix hs hsuf)
      | none =>
        have hparts := (scanHit_cons_false_iff hookPat c cs).mp hs
        have hall : mrun hookPat (subF m (f + 1) pv (c :: cs)) = none :=
          mrun_subF_none m HB (f + 1) pv (c :: cs) hookPat
            hookPat_mem_states hlen hparts.1
        simp only [subF, hm] at hall ⊢
        rw [scanHit_cons_false_iff]
        exact ⟨hall, ih (some c) cs (by simpa using hlen) hparts.2⟩

theorem runSub_hook_establish (rep0 : Text)
    (H2 : ∀ b, b ≠ [] → b <:+ rep0 → pran hookPat b = PRes.fail)
    (HB : ∀ ρ ∈ states, pran ρ rep0 = PRes.fail) (s : Text) :
    scanHit hookPat (runSub (patM hookPat rep0) s) = false :=
  scanHit_subF_hook rep0 H2 HB s.length none s (Nat.le_refl _)

theorem runSub_pres (m : Matcher) (Htame : Tame m)
    (HB : ∀ pv s rep lc rest, m pv s = some (rep, lc, rest) →
      ∀ ρ ∈ states, pran ρ rep = PRes.fail)
    (H3 : ∀ pv s rep lc rest, m pv s = some (rep, lc, rest) →
      scanHit hookPat s = false →
      ∀ b, b ≠ [] → b <:+ rep → ∀ t, mrun hookPat (b ++ t) = none)
    (s : Text) (hs : scanHit hookPat s = false) :
    scanHit hookPat (runSub m s) = false :=
  scanHit_subF_pres m Htame HB H3 s.length none s (Nat.le_refl _) hs

/- Shape lemmas for the concrete matchers: each fire consumes a nonempty
   prefix, and each replacement has a known segment structure. -/

theorem ite_some_eq {α : Type} {P : Prop} [Decidable P] {x y : α}
    (h : (if P then some x else none) = some y) : x = y := by
  split at h
  · simpa using h
  · simp at h

theorem tame_patM (ρ₀ : Pat) (rep : Text) (hρ : ρ₀ ≠ []) :
    Tame (patM ρ₀ rep) := by
  intro pv s rep' lc rest hm
  obtain ⟨_, hmr⟩ := patM_some hm
  exact mrun_shrinks s ρ₀ rest hρ hmr

theorem wbCore_some (find rep : Text) (trailB : Bool) (s : Text)
    {rep' : Text} {lc : Char} {rest : Text}
    (hm : wbCore find rep trailB s = some (rep', lc, rest)) :
    rep' = rep ∧ (rest = s.drop find.length ∨ rest = []) ∧ find <+: s := by
  unfold wbCore at hm
  split at hm
  · rename_i hpre
    have hp : find <+: s := List.isPrefixOf_iff_prefix.mp hpre
    cases trailB with
    | false =>
      simp only [Bool.false_eq_true, if_false] at hm
      simp only [Option.some.injEq, Prod.mk.injEq] at hm
      exact ⟨hm.1.symm, Or.inl hm.2.2.symm, hp⟩
    | true =>
      simp only [if_true] at hm
      split at hm
      · simp only [Option.some.injEq, Prod.mk.injEq] at hm
        exact ⟨hm.1.symm, Or.inr hm.2.2.symm, hp⟩
      · split at hm
        · simp at hm
        · simp only [Option.some.injEq, Prod.mk.injEq] at hm
          exact ⟨hm.1.symm, Or.inl hm.2.2.symm, hp⟩
  · simp at hm

theorem tame_wbM (find rep : Text) (trailB : Bool) (hf : find ≠ []) :
    Tame (wbM find rep trailB) := by
  intro pv s rep' lc rest hm
  have hcore : wbCore find rep trailB s = some (rep', lc, rest) := by
    unfold wbM at hm
    cases pv with
    | none => exact hm
    | some c =>
      by_cases hw : isWord c
      · simp [hw] at hm
      · simpa [hw] using hm
  obtain ⟨_, hrest, hp⟩ := wbCore_some find rep trailB s hcore
  have hfl : 0 < find.length := List.length_pos.mpr hf
  have hsl : find.length ≤ s.length := hp.length_le
  rcases hrest with h | h
  · subst h
    refine ⟨?_, List.drop_suffix _ _⟩
    rw [List.length_drop]
    omega
  · subst h
    exact ⟨by simpa using Nat.lt_of_lt_of_le hfl hsl, List.nil_suffix⟩

theorem wbM_some (find rep : Text) (trailB : Bool) (pv : Option Char)
    (s : Text) {rep' : Text} {lc : Char} {rest : Text}
    (hm : wbM find rep trailB pv s = some (rep', lc, rest)) : rep' = rep := by
  have hcore : wbCore find rep trailB s = some (rep', lc, rest) := by
    unfold wbM at hm
    cases pv with
    | none => exact hm
    | some c =>
      by_cases hw : isWord c
      · simp [hw] at hm
      · simpa [hw] using hm
  exact (wbCore_some find rep trailB s hcore).1

theorem capA_some (pre : Pat) (mk : Text → Text) (pv : Option Char) (s : Text)
    {rep' : Text} {lc : Char} {rest : Text}
    (hm : capA pre mk pv s = some (rep', lc, rest)) :
    ∃ cap, rep' = mk cap ∧ cap ≠ [] ∧ (∀ c ∈ cap, notBrace c = true) := by
  unfold capA at hm
  cases hmr : mrun pre s with
  | none => rw [hmr] at hm; simp at hm
  | some r1 =>
    rw [hmr] at hm
    simp only at hm
    split at hm
    · simp at hm
    · rename_i hR
      split at hm
      · simp only [Option.some.injEq, Prod.mk.injEq] at hm
        obtain ⟨h1, _, _⟩ := hm
        have hRne : r1.takeWhile notBrace ≠ [] := by
          intro h
          rw [h] at hR
          simp at hR
        have hRnb : ∀ c ∈ r1.takeWhile notBrace, notBrace c = true :=
          fun c hc => List.mem_takeWhile_imp hc
        refine ⟨_, h1.symm, ?_, ?_⟩
        · split
          · rename_i hW
            intro hdrop
            have hlen : (r1.takeWhile notBrace).length ≥ 1 :=
              List.length_pos.mpr hRne
            have := congrArg List.length hdrop
            rw [List.length_drop] at this
            simp at this
            omega
          · rename_i hW
            intro hdrop
            have hle : ((r1.takeWhile notBrace).takeWhile isWs).length ≤
                (r1.takeWhile notBrace).length :=
              (List.takeWhile_prefix isWs).length_le
            have := congrArg List.length hdrop
            rw [List.length_drop] at this
            simp at this
            omega
        · intro c hc
          have : c ∈ r1.takeWhile notBrace := by
            split at hc
            · exact (List.drop_suffix _ _).subset hc
            · exact (List.drop_suffix _ _).subset hc
          exact hRnb c this
      · simp at hm

theorem tame_capA (pre : Pat) (mk : Text → Text) (hpre : pre ≠ []) :
    Tame (capA pre mk) := by
  intro pv s rep' lc rest hm
  unfold capA at hm
  cases hmr : mrun pre s with
  | none => rw [hmr] at hm; simp at hm
  | some r1 =>
    rw [hmr] at hm
    simp only at hm
    split at hm
    · simp at hm
    · split at hm
      · simp only [Option.some.injEq, Prod.mk.injEq] at hm
        obtain ⟨_, _, h3⟩ := hm
        subst h3
        have h1 := mrun_shrinks s pre r1 hpre hmr
        have hsuf : ((r1.drop (r1.takeWhile notBrace).length).drop 3) <:+ r1 :=
          (List.drop_suffix _ _).trans (List.drop_suffix _ _)
        refine ⟨?_, hsuf.trans h1.2⟩
        have hle : ((r1.drop (r1.takeWhile notBrace).length).drop 3).length ≤
            r1.length := hsuf.length_le
        omega
      · simp at hm

theorem capB_some (pre : Pat) (midWs : Bool) (mk : Text → Text)
    (pv : Option Char) (s : Text) {rep' : Text} {lc : Char} {rest : Text}
    (hm : capB pre midWs mk pv s = some (rep', lc, rest)) :
    ∃ X, rep' = mk (lbC :: (X ++ [rbC])) ∧ X ≠ [] ∧
      (∀ c ∈ X, notBrace c = true) := by
  unfold capB at hm
  cases hmr : mrun pre s with
  | none => rw [hmr] at hm; simp at hm
  | some r1 =>
    rw [hmr] at hm
    simp only at hm
    cases hdw : r1.dropWhile isWs with
    | nil => rw [hdw] at hm; simp at hm
    | cons c r3 =>
      rw [hdw] at hm
      simp only at hm
      split at hm
      · split at hm
        · simp at hm
        · rename_i hX
          split at hm
          · simp at hm
          · rename_i d r5 hdrop
            split at hm
            · have heq := ite_some_eq hm
              simp only [Prod.mk.injEq] at heq
              refine ⟨r3.takeWhile notBrace, heq.1.symm, ?_, ?_⟩
              · intro h; rw [h] at hX; simp at hX
              · exact fun c hc => List.mem_takeWhile_imp hc
            · simp at hm
      · simp at hm

theorem tame_capB (pre : Pat) (midWs : Bool) (mk : Text → Text)
    (hpre : pre ≠ []) : Tame (capB pre midWs mk) := by
  intro pv s rep' lc rest hm
  unfold capB at hm
  cases hmr : mrun pre s with
  | none => rw [hmr] at hm; simp at hm
  | some r1 =>
    rw [hmr] at hm
    simp only at hm
    cases hdw : r1.dropWhile isWs with
    | nil => rw [hdw] at hm; simp at hm
    | cons c r3 =>
      rw [hdw] at hm
      simp only at hm
      split at hm
      · split at hm
        · simp at hm
        · split at hm
          · simp at hm
          · rename_i d r5 hdrop
            split at hm
            · have heq := ite_some_eq hm
              simp only [Prod.mk.injEq] at heq
              obtain ⟨_, _, h3⟩ := heq
              subst h3
              have h1 := mrun_shrinks s pre r1 hpre hmr
              have hr3 : (c :: r3) <:+ r1 := by
                rw [← hdw]
                exact List.dropWhile_suffix isWs
              have hr5 : (d :: r5) <:+ r3 := by
                rw [← hdrop]
                exact List.drop_suffix _ _
              have hr6suf :
                  (if midWs then r5.dropWhile isWs else r5) <:+ r5 := by
                split
                · exact List.dropWhile_suffix isWs
                · exact List.suffix_refl r5
              have hchain1 :
                  ((if midWs then r5.dropWhile isWs else r5).drop 3) <:+ r1 :=
                (((((List.drop_suffix _ _).trans hr6suf).trans
                  (List.suffix_cons d r5)).trans hr5).trans
                  (List.suffix_cons c r3)).trans hr3
              refine ⟨?_, hchain1.trans h1.2⟩
              have hle := hchain1.length_le
              have hlen1 := h1.1
              omega
            · simp at hm
      · simp at hm

theorem capC_some (pre : Pat) (mk : Text → Text) (hpre : pre ≠ [])
    (pv : Option Char) (s : Text)
    {rep' : Text} {lc : Char} {rest : Text}
    (hm : capC pre mk pv s = some (rep', lc, rest)) :
    ∃ Y z, rep' = mk Y ∧ Y ≠ [] ∧ (Y ++ z) <:+ s := by
  unfold capC at hm
  cases hmr : mrun pre s with
  | none => rw [hmr] at hm; simp at hm
  | some r1 =>
    rw [hmr] at hm
    simp only at hm
    cases hdw : r1.dropWhile isWs with
    | nil => rw [hdw] at hm; simp at hm
    | cons c r3 =>
      rw [hdw] at hm
      simp only at hm
      split at hm
      · split at hm
        · simp at hm
        · rename_i hY
          split at hm
          · simp at hm
          · rename_i d r5 hdrop
            split at hm
            · cases hdw2 : r5.dropWhile isWs with
              | nil => rw [hdw2] at hm; simp at hm
              | cons e r6 =>
                rw [hdw2] at hm
                simp only at hm
                split at hm
                · have heq := ite_some_eq hm
                  simp only [Prod.mk.injEq] at heq
                  obtain ⟨z, hz⟩ := (List.takeWhile_prefix notQuote (l := r3))
                  have hr3s : r3 <:+ s := by
                    have h1 := (mrun_shrinks s pre r1 hpre hmr).2
                    have h2 : (c :: r3) <:+ r1 := by
                      rw [← hdw]; exact List.dropWhile_suffix isWs
                    exact ((List.suffix_cons c r3).trans h2).trans h1
                  refine ⟨r3.takeWhile notQuote, z, heq.1.symm, ?_, ?_⟩
                  · intro h; rw [h] at hY; simp at hY
                  · rw [hz]; exact hr3s
                · simp at hm
            · simp at hm
      · simp at hm

theorem tame_capC (pre : Pat) (mk : Text → Text) (hpre : pre ≠ []) :
    Tame (capC pre mk) := by
  intro pv s rep' lc rest hm
  unfold capC at hm
  cases hmr : mrun pre s with
  | none => rw [hmr] at hm; simp at hm
  | some r1 =>
    rw [hmr] at hm
    simp only at hm
    cases hdw : r1.dropWhile isWs with
    | nil => rw [hdw] at hm; simp at hm
    | cons c r3 =>
      rw [hdw] at hm
      simp only at hm
      split at hm
      · split at hm
        · simp at hm
        · split at hm
          · simp at hm
          · rename_i d r5 hdrop
            split at hm
            · cases hdw2 : r5.dropWhile isWs with
              | nil => rw [hdw2] at hm; simp at hm
              | cons e r6 =>
                rw [hdw2] at hm
                simp only at hm
                split at hm
                · have heq := ite_some_eq hm
                  simp only [Prod.mk.injEq] at heq
                  obtain ⟨_, _, h3⟩ := heq
                  subst h3
                  have h1 := mrun_shrinks s pre r1 hpre hmr
                  have hr3 : (c :: r3) <:+ r1 := by
                    rw [← hdw]; exact List.dropWhile_suffix isWs
                  have hr5 : (d :: r5) <:+ r3 := by
                    rw [← hdrop]; exact List.drop_suffix _ _
                  have hr6 : (e :: r6) <:+ r5 := by
                    rw [← hdw2]; exact List.dropWhile_suffix isWs
                  have hchain1 : (r6.drop 2) <:+ r1 :=
                    ((((((List.drop_suffix 2 r6).trans
                      (List.suffix_cons e r6)).trans hr6).trans
                      (List.suffix_cons d r5)).trans hr5).trans
                      (List.suffix_cons c r3)).trans hr3
                  refine ⟨?_, hchain1.trans h1.2⟩
                  have hle := hchain1.length_le
                  have hlen1 := h1.1
                  omega
                · simp at hm
            · simp at hm
      · simp at hm

/- Junction lemmas: why no suffix of any replacement, continued with
   arbitrary following text, can begin a hook-pattern match. -/

theorem mrun_head_none (c : Char) (hstep : step hookPat c = none) (w : Text) :
    mrun hookPat (c :: w) = none := by
  rw [mrun_eq_of_pran, pran_step_none hookPat c w hookPat_ne_nil hstep]

theorem cross_bracefree (b₂ : Text) (hnb : ∀ c ∈ b₂, notBrace c = true)
    (tail : Text)
    (htail : ∀ ρ ∈ states, hasBrace ρ → pran ρ tail = PRes.fail)
    (r : Text) : mrun hookPat (b₂ ++ (tail ++ r)) = none := by
  rcases pran_hasBrace b₂ hookPat hookPat_mem_states hookPat_hasBrace hnb with
    h | ⟨ρ', hρ', hmem, hbr⟩
  · exact mrun_none_of_pran_fail b₂ hookPat _ h
  · have hfail : pran hookPat (b₂ ++ (tail ++ r)) = PRes.fail := by
      rw [pran_append_more b₂ hookPat ρ' _ hρ']
      exact pran_append_fail tail ρ' r (htail ρ' hmem hbr)
    rw [mrun_eq_of_pran, hfail]

theorem cross_infix (b₂ tail r Y z s : Text)
    (hsb : b₂ <:+ Y) (hYz : (Y ++ z) <:+ s)
    (hscan : scanHit hookPat s = false)
    (htail : ∀ ρ ∈ states, pran ρ tail = PRes.fail) :
    mrun hookPat (b₂ ++ (tail ++ r)) = none := by
  cases hpr : pran hookPat b₂ with
  | fail => exact mrun_none_of_pran_fail b₂ hookPat _ hpr
  | more ρ' =>
    have hmem := pran_more_mem b₂ hookPat ρ' hookPat_mem_states hpr
    have hfail : pran hookPat (b₂ ++ (tail ++ r)) = PRes.fail := by
      rw [pran_append_more b₂ hookPat ρ' _ hpr]
      exact pran_append_fail tail ρ' r (htail ρ' hmem)
    rw [mrun_eq_of_pran, hfail]
  | hit rest' =>
    exfalso
    obtain ⟨a, ha⟩ := hsb
    have hsfx : (b₂ ++ z) <:+ s := by
      have h1 : Y ++ z = a ++ (b₂ ++ z) := by rw [← ha, List.append_assoc]
      have h2 : (b₂ ++ z) <:+ (Y ++ z) := by
        rw [h1]; exact List.suffix_append a _
      exact h2.trans hYz
    have hmr : mrun hookPat (b₂ ++ z) ≠ none := by
      rw [mrun_eq_of_pran, pran_append_hit b₂ hookPat z rest' hpr]
      simp
    have htrue := scanHit_true_of_mrun hookPat (b₂ ++ z) hmr
    have hfalse := scanHit_suffix hscan hsfx
    simp [hfalse] at htrue

theorem hb3_fixed (rep0 : Text)
    (SC : ∀ b ∈ rep0.tails, b ≠ [] → pran hookPat b = PRes.fail) :
    ∀ b, b ≠ [] → b <:+ rep0 → ∀ t, mrun hookPat (b ++ t) = none :=
  fun b hbne hbsuf t =>
    mrun_none_of_pran_fail b hookPat t
      (SC b ((List.mem_tails b rep0).mpr hbsuf) hbne)

theorem hb3_capA (L R cap : Text)
    (hcap : ∀ c ∈ cap, notBrace c = true)
    (SCL : ∀ b ∈ L.tails, b ≠ [] → pran hookPat b = PRes.fail)
    (SCR : ∀ b ∈ R.tails, b ≠ [] → pran hookPat b = PRes.fail)
    (SCBA : ∀ ρ ∈ states, hasBrace ρ → pran ρ R = PRes.fail) :
    ∀ b, b ≠ [] → b <:+ (L ++ (cap ++ R)) → ∀ t,
      mrun hookPat (b ++ t) = none := by
  intro b hbne hbsuf t
  rcases suffix_split L (cap ++ R) b hbsuf with h1 | ⟨b₁, hb₁ne, hb₁suf, rfl⟩
  · rcases suffix_split cap R b h1 with h2 | ⟨b₂, _, hb₂suf, rfl⟩
    · exact mrun_none_of_pran_fail b hookPat t
        (SCR b ((List.mem_tails b R).mpr h2) hbne)
    · have hnb : ∀ c ∈ b₂, notBrace c = true :=
        fun c hc => hcap c (hb₂suf.subset hc)
      rw [List.append_assoc]
      exact cross_bracefree b₂ hnb R SCBA t
  · rw [List.append_assoc]
    exact mrun_none_of_pran_fail b₁ hookPat _
      (SCL b₁ ((List.mem_tails b₁ L).mpr hb₁suf) hb₁ne)

theorem hb3_capB (L R X : Text)
    (hX : ∀ c ∈ X, notBrace c = true)
    (SCL : ∀ b ∈ L.tails, b ≠ [] → pran hookPat b = PRes.fail)
    (SCR : ∀ b ∈ R.tails, b ≠ [] → pran hookPat b = PRes.fail)
    (SCBA : ∀ ρ ∈ states, hasBrace ρ → pran ρ (rbC :: R) = PRes.fail) :
    ∀ b, b ≠ [] → b <:+ (L ++ ((lbC :: (X ++ [rbC])) ++ R)) → ∀ t,
      mrun hookPat (b ++ t) = none := by
  intro b hbne hbsuf t
  rcases suffix_split L ((lbC :: (X ++ [rbC])) ++ R) b hbsuf with
    h1 | ⟨b₁, hb₁ne, hb₁suf, rfl⟩
  · rcases suffix_split (lbC :: (X ++ [rbC])) R b h1 with
      h2 | ⟨b₂, hb₂ne, hb₂suf, rfl⟩
    · exact mrun_none_of_pran_fail b hookPat t
        (SCR b ((List.mem_tails b R).mpr h2) hbne)
    · rcases List.suffix_cons_iff.mp hb₂suf with h3 | h3
      · subst h3
        simp only [List.cons_append]
        exact mrun_head_none lbC (by decide) _
      · rcases suffix_split X [rbC] b₂ h3 with h4 | ⟨b₃, _, hb₃suf, rfl⟩
        · have hb2 : b₂ = [rbC] := suffix_singleton hb₂ne h4
          subst hb2
          simp only [List.cons_append, List.nil_append]
          exact mrun_head_none rbC (by decide) _
        · have hnb : ∀ c ∈ b₃, notBrace c = true :=
            fun c hc => hX c (hb₃suf.subset hc)
          have harr : ((b₃ ++ [rbC]) ++ R) ++ t = b₃ ++ ((rbC :: R) ++ t) := by
            simp
          rw [harr]
          exact cross_bracefree b₃ hnb (rbC :: R) SCBA t
  · rw [List.append_assoc]
    exact mrun_none_of_pran_fail b₁ hookPat _
      (SCL b₁ ((List.mem_tails b₁ L).mpr hb₁suf) hb₁ne)

theorem hb3_capB2 (L M R X : Text)
    (hX : ∀ c ∈ X, notBrace c = true)
    (SCL : ∀ b ∈ L.tails, b ≠ [] → pran hookPat b = PRes.fail)
    (SCM : ∀ b ∈ M.tails, b ≠ [] → pran hookPat b = PRes.fail)
    (SCR : ∀ b ∈ R.tails, b ≠ [] → pran hookPat b = PRes.fail)
    (SCBAM : ∀ ρ ∈ states, hasBrace ρ → pran ρ (rbC :: M) = PRes.fail)
    (SCBAR : ∀ ρ ∈ states, hasBrace ρ → pran ρ (rbC :: R) = PRes.fail) :
    ∀ b, b ≠ [] →
      b <:+ (L ++ ((lbC :: (X ++ [rbC])) ++
        (M ++ ((lbC :: (X ++ [rbC])) ++ R)))) → ∀ t,
      mrun hookPat (b ++ t) = none := by
  intro b hbne hbsuf t
  rcases suffix_split L _ b hbsuf with h1 | ⟨b₁, hb₁ne, hb₁suf, rfl⟩
  · rcases suffix_split (lbC :: (X ++ [rbC])) _ b h1 with
      h2 | ⟨b₂, hb₂ne, hb₂suf, rfl⟩
    · rcases suffix_split M ((lbC :: (X ++ [rbC])) ++ R) b h2 with
        h5 | ⟨b₄, hb₄ne, hb₄suf, rfl⟩
      · rcases suffix_split (lbC :: (X ++ [rbC])) R b h5 with
          h6 | ⟨b₅, hb₅ne, hb₅suf, rfl⟩
        · exact mrun_none_of_pran_fail b hookPat t
            (SCR b ((List.mem_tails b R).mpr h6) hbne)
        · rcases List.suffix_cons_iff.mp hb₅suf with h7 | h7
          · subst h7
            simp only [List.cons_append]
            exact mrun_head_none lbC (by decide) _
          · rcases suffix_split X [rbC] b₅ h7 with h8 | ⟨b₆, _, hb₆suf, rfl⟩
            · have hb5 : b₅ = [rbC] := suffix_singleton hb₅ne h8
              subst hb5
              simp only [List.cons_append, List.nil_append]
              exact mrun_head_none rbC (by decide) _
            · have hnb : ∀ c ∈ b₆, notBrace c = true :=
                fun c hc => hX c (hb₆suf.subset hc)
              have harr : ((b₆ ++ [rbC]) ++ R) ++ t =
                  b₆ ++ ((rbC :: R) ++ t) := by simp
              rw [harr]
              exact cross_bracefree b₆ hnb (rbC :: R) SCBAR t
      · have hfail := SCM b₄ ((List.mem_tails b₄ M).mpr hb₄suf) hb₄ne
        rw [List.append_assoc]
        exact mrun_none_of_pran_fail b₄ hookPat _ hfail
    · rcases List.suffix_cons_iff.mp hb₂suf with h3 | h3
      · subst h3
        simp only [List.cons_append]
        exact mrun_head_none lbC (by decide) _
      · rcases suffix_split X [rbC] b₂ h3 with h4 | ⟨b₃, _, hb₃suf, rfl⟩
        · have hb2 : b₂ = [rbC] := suffix_singleton hb₂ne h4
          subst hb2
          simp only [List.cons_append, List.nil_append]
          exact mrun_head_none rbC (by decide) _
        · have hnb : ∀ c ∈ b₃, notBrace c = true :=
            fun c hc => hX c (hb₃suf.subset hc)
          have harr :
              ((b₃ ++ [rbC]) ++ (M ++ ((lbC :: (X ++ [rbC])) ++ R))) ++ t =
                b₃ ++ ((rbC :: M) ++ (((lbC :: (X ++ [rbC])) ++ R) ++ t)) := by
            simp
          rw [harr]
          exact cross_bracefree b₃ hnb (rbC :: M) SCBAM _
  · rw [List.append_assoc]
    exact mrun_none_of_pran_fail b₁ hookPat _
      (SCL b₁ ((List.mem_tails b₁ L).mpr hb₁suf) hb₁ne)

theorem hb3_capC (L R Y z s : Text)
    (hYz : (Y ++ z) <:+ s) (hscan : scanHit hookPat s = false)
    (SCL : ∀ b ∈ L.tails, b ≠ [] → pran hookPat b = PRes.fail)
    (SCR : ∀ b ∈ R.tails, b ≠ [] → pran hookPat b = PRes.fail)
    (SCQ : ∀ ρ ∈ states, pran ρ R = PRes.fail) :
    ∀ b, b ≠ [] → b <:+ (L ++ (Y ++ R)) → ∀ t,
      mrun hookPat (b ++ t) = none := by
  intro b hbne hbsuf t
  rcases suffix_split L (Y ++ R) b hbsuf with h1 | ⟨b₁, hb₁ne, hb₁suf, rfl⟩
  · rcases suffix_split Y R b h1 with h2 | ⟨b₂, _, hb₂suf, rfl⟩
    · exact mrun_none_of_pran_fail b hookPat t
        (SCR b ((List.mem_tails b R).mpr h2) hbne)
    · rw [List.append_assoc]
      exact cross_infix b₂ R t Y z s hb₂suf hYz hscan SCQ
  · rw [List.append_assoc]
    exact mrun_none_of_pran_fail b₁ hookPat _
      (SCL b₁ ((List.mem_tails b₁ L).mpr hb₁suf) hb₁ne)

/- Replacement templates in segment form. -/

theorem callRep_eq (name : String) (cap : Text) :
    callRep name cap = (sl name ++ ['(']) ++ (cap ++ sl ");") := by
  simp [callRep]

theorem dupRep_eq (name : String) (cap : Text) :
    dupRep name cap =
      (sl name ++ ['(']) ++ (cap ++ (sl ".sessionId, " ++ (cap ++ sl ");"))) := by
  simp [dupRep]

theorem markRep_eq (cap : Text) :
    markRep cap =
      (sl "uiDispatch(\x7b type: 'MARK_FEATURE_INTRODUCED', payload: '") ++
        (cap ++ sl "' \x7d);") := by
  simp [markRep]

theorem tabRep_eq (cap : Text) :
    tabRep cap =
      (sl "uiDispatch(\x7b type: 'SET_ACTIVE_TAB', payload: ") ++
        (cap ++ sl " \x7d);") := by
  simp [tabRep]

/- Per-pass preservation: once the text has no hook-pattern occurrence,
   each later pass keeps it that way. -/

theorem pres_wb (find rep : Text) (tb : Bool) (hf : find ≠ [])
    (h1 : ∀ ρ ∈ states, pran ρ rep = PRes.fail)
    (h2 : ∀ b ∈ rep.tails, b ≠ [] → pran hookPat b = PRes.fail)
    {s : Text} (hs : scanHit hookPat s = false) :
    scanHit hookPat (runSub (wbM find rep tb) s) = false :=
  runSub_pres (wbM find rep tb) (tame_wbM find rep tb hf)
    (fun pv s' _ lc rest hm ρ hρ => by
      rw [wbM_some find rep tb pv s' hm]
      exact h1 ρ hρ)
    (fun pv s' _ lc rest hm _ b hbne hbsuf t => by
      rw [wbM_some find rep tb pv s' hm] at hbsuf
      exact hb3_fixed rep h2 b hbne hbsuf t)
    s hs

theorem pres_patM (ρ₀ : Pat) (rep : Text) (hρ : ρ₀ ≠ [])
    (h1 : ∀ ρ ∈ states, pran ρ rep = PRes.fail)
    (h2 : ∀ b ∈ rep.tails, b ≠ [] → pran hookPat b = PRes.fail)
    {s : Text} (hs : scanHit hookPat s = false) :
    scanHit hookPat (runSub (patM ρ₀ rep) s) = false :=
  runSub_pres (patM ρ₀ rep) (tame_patM ρ₀ rep hρ)
    (fun _ _ _ _ _ hm ρ hρ2 => by
      rw [(patM_some hm).1]
      exact h1 ρ hρ2)
    (fun _ _ _ _ _ hm _ b hbne hbsuf t => by
      rw [(patM_some hm).1] at hbsuf
      exact hb3_fixed rep h2 b hbne hbsuf t)
    s hs

theorem pres_capA (pre : Pat) (L R : Text) (mk : Text → Text) (hpre : pre ≠ [])
    (hmk : ∀ cap, mk cap = L ++ (cap ++ R))
    (hL1 : ∀ ρ ∈ states, pran ρ L = PRes.fail)
    (hLt : ∀ b ∈ L.tails, b ≠ [] → pran hookPat b = PRes.fail)
    (hRt : ∀ b ∈ R.tails, b ≠ [] → pran hookPat b = PRes.fail)
    (hBA : ∀ ρ ∈ states, hasBrace ρ → pran ρ R = PRes.fail)
    {s : Text} (hs : scanHit hookPat s = false) :
    scanHit hookPat (runSub (capA pre mk) s) = false :=
  runSub_pres (capA pre mk) (tame_capA pre mk hpre)
    (fun pv s' _ lc rest hm ρ hρ => by
      obtain ⟨cap, hrep, _, _⟩ := capA_some pre mk pv s' hm
      rw [hrep, hmk cap]
      exact pran_append_fail L ρ _ (hL1 ρ hρ))
    (fun pv s' _ lc rest hm _ b hbne hbsuf t => by
      obtain ⟨cap, hrep, _, hnb⟩ := capA_some pre mk pv s' hm
      rw [hrep, hmk cap] at hbsuf
      exact hb3_capA L R cap hnb hLt hRt hBA b hbne hbsuf t)
    s hs

theorem pres_capB1 (pre : Pat) (midWs : Bool) (L R : Text) (mk : Text → Text)
    (hpre : pre ≠ [])
    (hmk : ∀ cap, mk cap = L ++ (cap ++ R))
    (hL1 : ∀ ρ ∈ states, pran ρ L = PRes.fail)
    (hLt : ∀ b ∈ L.tails, b ≠ [] → pran hookPat b = PRes.fail)
    (hRt : ∀ b ∈ R.tails, b ≠ [] → pran hookPat b = PRes.fail)
    (hBAc : ∀ ρ ∈ states, hasBrace ρ → pran ρ (rbC :: R) = PRes.fail)
    {s : Text} (hs : scanHit hookPat s = false) :
    scanHit hookPat (runSub (capB pre midWs mk) s) = false :=
  runSub_pres (capB pre midWs mk) (tame_capB pre midWs mk hpre)
    (fun pv s' _ lc rest hm ρ hρ => by
      obtain ⟨X, hrep, _, _⟩ := capB_some pre midWs mk pv s' hm
      rw [hrep, hmk _]
      exact pran_append_fail L ρ _ (hL1 ρ hρ))
    (fun pv s' _ lc rest hm _ b hbne hbsuf t => by
      obtain ⟨X, hrep, _, hnb⟩ := capB_some pre midWs mk pv s' hm
      rw [hrep, hmk _] at hbsuf
      exact hb3_capB L R X hnb hLt hRt hBAc b hbne hbsuf t)
    s hs

theorem pres_capB2 (pre : Pat) (midWs : Bool) (L M R : Text) (mk : Text → Text)
    (hpre : pre ≠ [])
    (hmk : ∀ cap, mk cap = L ++ (cap ++ (M ++ (cap ++ R))))
    (hL1 : ∀ ρ ∈ states, pran ρ L = PRes.fail)
    (hLt : ∀ b ∈ L.tails, b ≠ [] → pran hookPat b = PRes.fail)
    (hMt : ∀ b ∈ M.tails, b ≠ [] → pran hookPat b = PRes.fail)
    (hRt : ∀ b ∈ R.tails, b ≠ [] → pran hookPat b = PRes.fail)
    (hBAM : ∀ ρ ∈ states, hasBrace ρ → pran ρ (rbC :: M) = PRes.fail)
    (hBAR : ∀ ρ ∈ states, hasBrace ρ → pran ρ (rbC :: R) = PRes.fail)
    {s : Text} (hs : scanHit hookPat s = false) :
    scanHit hookPat (runSub (capB pre midWs mk) s) = false :=
  runSub_pres (capB pre midWs mk) (tame_capB pre midWs mk hpre)
    (fun pv s' _ lc rest hm ρ hρ => by
      obtain ⟨X, hrep, _, _⟩ := capB_some pre midWs mk pv s' hm
      rw [hrep, hmk _]
      exact pran_append_fail L ρ _ (hL1 ρ hρ))
    (fun pv s' _ lc rest hm _ b hbne hbsuf t => by
      obtain ⟨X, hrep, _, hnb⟩ := capB_some pre midWs mk pv s' hm
      rw [hrep, hmk _] at hbsuf
      exact hb3_capB2 L M R X hnb hLt hMt hRt hBAM hBAR b hbne hbsuf t)
    s hs

theorem pres_capC (pre : Pat) (L R : Text) (mk : Text → Text) (hpre : pre ≠ [])
    (hmk : ∀ cap, mk cap = L ++ (cap ++ R))
    (hL1 : ∀ ρ ∈ states, pran ρ L = PRes.fail)
    (hLt : ∀ b ∈ L.tails, b ≠ [] → pran hookPat b = PRes.fail)
    (hRt : ∀ b ∈ R.tails, b ≠ [] → pran hookPat b = PRes.fail)
    (hQ : ∀ ρ ∈ states, pran ρ R = PRes.fail)
    {s : Text} (hs : scanHit hookPat s = false) :
    scanHit hookPat (runSub (capC pre mk) s) = false :=
  runSub_pres (capC pre mk) (tame_capC pre mk hpre)
    (fun pv s' _ lc rest hm ρ hρ => by
      obtain ⟨Y, z, hrep, _, _⟩ := capC_some pre mk hpre pv s' hm
      rw [hrep, hmk _]
      exact pran_append_fail L ρ _ (hL1 ρ hρ))
    (fun pv s' _ lc rest hm hscan b hbne hbsuf t => by
      obtain ⟨Y, z, hrep, hYne, hYz⟩ := capC_some pre mk hpre pv s' hm
      rw [hrep, hmk _] at hbsuf
      exact hb3_capC L R Y z s' hYz hscan hLt hRt hQ b hbne hbsuf t)
    s hs

/- The two pipelines leave no hook-pattern occurrence behind. -/

set_option maxRecDepth 100000 in
theorem hook_clear_sessions (t : Text) :
    scanHit hookPat (runSub (patM hookPat hookRepS) t) = false :=
  runSub_hook_establish hookRepS
    (fun b hbne hbsuf =>
      (by decide : ∀ b ∈ hookRepS.tails, b ≠ [] → pran hookPat b = PRes.fail)
        b ((List.mem_tails b hookRepS).mpr hbsuf) hbne)
    (by decide) t

set_option maxRecDepth 100000 in
theorem hook_clear_capture (t : Text) :
    scanHit hookPat (runSub (patM hookPat hookRepC) t) = false :=
  runSub_hook_establish hookRepC
    (fun b hbne hbsuf =>
      (by decide : ∀ b ∈ hookRepC.tails, b ≠ [] → pran hookPat b = PRes.fail)
        b ((List.mem_tails b hookRepC).mpr hbsuf) hbne)
    (by decide) t

set_option maxRecDepth 400000 in
theorem noHook_sessions (s : Text) :
    scanHit hookPat (migrate_sessions_text s) = false := by
  simp only [migrate_sessions_text, applyAll, sessionsPasses, List.foldl_cons,
    List.foldl_nil]
  refine pres_capB2 (preP "ADD_SESSION_AUDIO_SEGMENT") false
    (sl "addAudioSegment" ++ ['(']) (sl ".sessionId, ") (sl ");")
    (dupRep "addAudioSegment") (by decide) (dupRep_eq "addAudioSegment")
    (by decide) (by decide) (by decide) (by decide) (by decide) (by decide) ?_
  refine pres_capB2 (preP "ADD_SESSION_SCREENSHOT") false
    (sl "addScreenshot" ++ ['(']) (sl ".sessionId, ") (sl ");")
    (dupRep "addScreenshot") (by decide) (dupRep_eq "addScreenshot")
    (by decide) (by decide) (by decide) (by decide) (by decide) (by decide) ?_
  refine pres_capA (preP "DELETE_SESSION") (sl "deleteSession" ++ ['('])
    (sl ");") (callRep "deleteSession") (by decide) (callRep_eq "deleteSession")
    (by decide) (by decide) (by decide) (by decide) ?_
  refine pres_capA (preP "UPDATE_SESSION") (sl "updateSession" ++ ['('])
    (sl ");") (callRep "updateSession") (by decide) (callRep_eq "updateSession")
    (by decide) (by decide) (by decide) (by decide) ?_
  refine pres_capA (preP "RESUME_SESSION") (sl "resumeSession" ++ ['('])
    (sl ");") (callRep "resumeSession") (by decide) (callRep_eq "resumeSession")
    (by decide) (by decide) (by decide) (by decide) ?_
  refine pres_capA (preP "PAUSE_SESSION") (sl "pauseSession" ++ ['('])
    (sl ");") (callRep "pauseSession") (by decide) (callRep_eq "pauseSession")
    (by decide) (by decide) (by decide) (by decide) ?_
  refine pres_capA (preP "END_SESSION") (sl "endSession" ++ ['('])
    (sl ");") (callRep "endSession") (by decide) (callRep_eq "endSession")
    (by decide) (by decide) (by decide) (by decide) ?_
  refine pres_capA (preP "START_SESSION") (sl "startSession" ++ ['('])
    (sl ");") (callRep "startSession") (by decide) (callRep_eq "startSession")
    (by decide) (by decide) (by decide) (by decide) ?_
  refine pres_capB1 (preP "ADD_NOTIFICATION") true
    (sl "addNotification" ++ ['(']) (sl ");") (callRep "addNotification")
    (by decide) (callRep_eq "addNotification")
    (by decide) (by decide) (by decide) (by decide) ?_
  refine pres_capC (preP "MARK_FEATURE_INTRODUCED")
    (sl "uiDispatch(\x7b type: 'MARK_FEATURE_INTRODUCED', payload: '")
    (sl "' \x7d);") markRep (by decide) markRep_eq
    (by decide) (by decide) (by decide) (by decide) ?_
  refine pres_wb (sl "state.onboarding") (sl "uiState.onboarding") true
    (by decide) (by decide) (by decide) ?_
  refine pres_wb (sl "state.ui.") (sl "uiState.") false
    (by decide) (by decide) (by decide) ?_
  refine pres_wb (sl "state.activeSessionId") (sl "activeSessionId") true
    (by decide) (by decide) (by decide) ?_
  refine pres_wb (sl "state.sessions") (sl "sessions") true
    (by decide) (by decide) (by decide) ?_
  exact hook_clear_sessions (runSub (litM importFind importRepS) s)

set_option maxRecDepth 400000 in
theorem noHook_capture (s : Text) :
    scanHit hookPat (migrate_capture_text s) = false := by
  simp only [migrate_capture_text, applyAll, capturePasses, List.foldl_cons,
    List.foldl_nil]
  refine pres_capA (preP "SET_ACTIVE_TAB")
    (sl "uiDispatch(\x7b type: 'SET_ACTIVE_TAB', payload: ") (sl " \x7d);")
    tabRep (by decide) tabRep_eq
    (by decide) (by decide) (by decide) (by decide) ?_
  refine pres_patM togglePat toggleRep (by decide)
    (by decide) (by decide) ?_
  refine pres_capA (preP "ADD_TASK") (sl "addTask" ++ ['('])
    (sl ");") (callRep "addTask") (by decide) (callRep_eq "addTask")
    (by decide) (by decide) (by decide) (by decide) ?_
  refine pres_capA (preP "UPDATE_NOTE") (sl "updateNote" ++ ['('])
    (sl ");") (callRep "updateNote") (by decide) (callRep_eq "updateNote")
    (by decide) (by decide) (by decide) (by decide) ?_
  refine pres_capA (preP "ADD_NOTE") (sl "addNote" ++ ['('])
    (sl ");") (callRep "addNote") (by decide) (callRep_eq "addNote")
    (by decide) (by decide) (by decide) (by decide) ?_
  refine pres_capA (preP "ADD_TOPIC") (sl "addTopic" ++ ['('])
    (sl ");") (callRep "addTopic") (by decide) (callRep_eq "addTopic")
    (by decide) (by decide) (by decide) (by decide) ?_
  refine pres_capB1 (preP "ADD_PROCESSING_JOB") true
    (sl "addProcessingJob" ++ ['(']) (sl ");") (callRep "addProcessingJob")
    (by decide) (callRep_eq "addProcessingJob")
    (by decide) (by decide) (by decide) (by decide) ?_
  refine pres_capB1 (preP "ADD_NOTIFICATION") true
    (sl "addNotification" ++ ['(']) (sl ");") (callRep "addNotification")
    (by decide) (callRep_eq "addNotification")
    (by decide) (by decide) (by decide) (by decide) ?_
  refine pres_wb (sl "state.sessions") (sl "sessions") true
    (by decide) (by decide) (by decide) ?_
  refine pres_wb (sl "state.tasks") (sl "tasksState.tasks") true
    (by decide) (by decide) (by decide) ?_
  refine pres_wb (sl "state.notes") (sl "notesState.notes") true
    (by decide) (by decide) (by decide) ?_
  refine pres_wb (sl "state.topics") (sl "entitiesState.topics") true
    (by decide) (by decide) (by decide) ?_
  refine pres_wb (sl "state.contacts") (sl "entitiesState.contacts") true
    (by decide) (by decide) (by decide) ?_
  refine pres_wb (sl "state.companies") (sl "entitiesState.companies") true
    (by decide) (by decide) (by decide) ?_
  refine pres_wb (sl "state.quickCaptureOpen") (sl "uiState.quickCaptureOpen")
    true (by decide) (by decide) (by decide) ?_
  refine pres_wb (sl "state.ui.") (sl "uiState.") false
    (by decide) (by decide) (by decide) ?_
  refine pres_wb (sl "state.nedSettings") (sl "settingsState.nedSettings") true
    (by decide) (by decide) (by decide) ?_
  refine pres_wb (sl "state.userProfile") (sl "settingsState.userProfile") true
    (by decide) (by decide) (by decide) ?_
  refine pres_wb (sl "state.aiSettings") (sl "settingsState.aiSettings") true
    (by decide) (by decide) (by decide) ?_
  exact hook_clear_capture (runSub (litM importFind importRepC) s)

theorem patM_isSome (ρ₀ : Pat) (rep : Text) (pv : Option Char) (u : Text) :
    (patM ρ₀ rep pv u).isSome = (mrun ρ₀ u).isSome := by
  unfold patM
  cases mrun ρ₀ u <;> simp

theorem scanM_patM_eq (ρ₀ : Pat) (rep : Text) :
    ∀ (pv : Option Char) (t : Text), scanM (patM ρ₀ rep) pv t = scanHit ρ₀ t := by
  intro pv t
  induction t generalizing pv with
  | nil => simp [scanM, scanHit, patM_isSome]
  | cons c cs ih =>
    simp only [scanM, scanHit, patM_isSome]
    rw [ih (some c)]

/- Single-fire evaluation: when the matcher fires at position zero and
   consumes the whole input, the pass returns exactly the replacement. -/

theorem runSub_single_fire (m : Matcher) (s : Text) (rep : Text) (lc : Char)
    (hs : s ≠ []) (hm : m none s = some (rep, lc, [])) :
    runSub m s = rep := by
  cases s with
  | nil => exact absurd rfl hs
  | cons c cs =>
    show subF m (c :: cs).length none (c :: cs) = rep
    rw [List.length_cons]
    simp only [subF, hm]
    rw [subF_nil]
    exact List.append_nil rep

theorem takeWhile_app_cons (p : Char → Bool) :
    ∀ (x : Text) (d : Char) (t : Text), (∀ c ∈ x, p c = true) → p d = false →
      (x ++ (d :: t)).takeWhile p = x := by
  intro x
  induction x with
  | nil =>
    intro d t _ hd
    simp [List.takeWhile_cons, hd]
  | cons a x' ih =>
    intro d t hx hd
    simp only [List.cons_append, List.takeWhile_cons,
      hx a (List.mem_cons_self a x'), if_true]
    rw [ih d t (fun c hc => hx c (List.mem_cons_of_mem a hc)) hd]

theorem capB_eval (pre : Pat) (mk : Text → Text) (x s : Text) (pv : Option Char)
    (hs : mrun pre s = some (' ' :: (braced x ++ sl "\x7d);")))
    (hne : x ≠ []) (hnb : ∀ c ∈ x, notBrace c = true) :
    capB pre false mk pv s = some (mk (braced x), ';', []) := by
  have e1 : List.dropWhile isWs (' ' :: (braced x ++ sl "\x7d);")) =
      lbC :: ((x ++ [rbC]) ++ sl "\x7d);") := by
    rw [List.dropWhile_cons]
    rw [show isWs ' ' = true from rfl]
    simp only [if_true]
    rw [show braced x ++ sl "\x7d);" = lbC :: ((x ++ [rbC]) ++ sl "\x7d);")
      from rfl]
    rw [List.dropWhile_cons]
    rw [show isWs lbC = false from rfl]
    simp
  have e2 : ((x ++ [rbC]) ++ sl "\x7d);").takeWhile notBrace = x := by
    rw [List.append_assoc]
    exact takeWhile_app_cons notBrace x rbC _ hnb (by decide)
  have e3 : ((x ++ [rbC]) ++ sl "\x7d);").drop x.length = rbC :: sl "\x7d);" := by
    rw [List.append_assoc]
    rw [show [rbC] ++ sl "\x7d);" = (rbC :: sl "\x7d);") from rfl]
    exact List.drop_left x (rbC :: sl "\x7d);")
  have hie : x.isEmpty = false := by
    cases x with
    | nil => exact absurd rfl hne
    | cons a l => rfl
  unfold capB
  rw [hs]
  simp only []
  rw [e1]
  simp only [if_true]
  rw [e2, hie]
  simp only [Bool.false_eq_true, if_false]
  rw [e3]
  rfl

/- Claim theorems on concrete computations. -/

set_option maxRecDepth 100000 in
/-- C1, counterexample: on the spec's minimal ADD_NOTE fixture the rewritten
    output does not contain the exact text `addNote(noteObj);` — the greedy
    capture `[^}]+` keeps the space before the closing brace. -/
theorem c1_counterexample :
    containsT (sl "addNote(noteObj);") (migrate_capture_text fixAddNote) =
      false := by decide

set_option maxRecDepth 100000 in
/-- C1, amended: on the minimal ADD_NOTE fixture the output contains
    `addNote(noteObj );`, with the captured payload's trailing space kept. -/
theorem c1_amended_payload_space :
    containsT (sl "addNote(noteObj );") (migrate_capture_text fixAddNote) =
      true := by decide

set_option maxRecDepth 400000 in
/-- C3, counterexample: the migration is not idempotent — on an input whose
    START_SESSION payload capture itself contains a legacy dispatch prefix,
    a second run of the SessionsZone substitution sequence changes the
    already-migrated text again. -/
theorem c3_counterexample :
    migrate_sessions_text (migrate_sessions_text fixNested) ≠
      migrate_sessions_text fixNested := by decide

/-- C2: after one run of either migration, no occurrence of the legacy hook
    destructuring regex `const\s+{\s*state,\s*dispatch\s*}\s*=\s*useApp\(\);`
    remains anywhere in the output, for every input text. -/
theorem c2_no_hook_after_migration (s : Text) :
    scanHit hookPat (migrate_sessions_text s) = false ∧
    scanHit hookPat (migrate_capture_text s) = false :=
  ⟨noHook_sessions s, noHook_capture s⟩

/-- C2 witness at a concrete input containing the hook pattern. -/
theorem c2_no_hook_witness :
    scanHit hookPat
      (migrate_sessions_text (sl "const \x7b state, dispatch \x7d = useApp();"))
      = false ∧
    scanHit hookPat
      (migrate_capture_text (sl "const \x7b state, dispatch \x7d = useApp();"))
      = false :=
  c2_no_hook_after_migration (sl "const \x7b state, dispatch \x7d = useApp();")

/-- C3, amended: a second run is a no-op with respect to the legacy hook
    destructuring pattern — the hook substitution finds nothing to rewrite on
    already-migrated text — but the full substitution sequence is not
    idempotent in general, because a dispatch-call substitution can fire again
    when a payload capture itself contained a legacy dispatch call. -/
theorem c3_hook_step_idempotent (s : Text) :
    runSub (patM hookPat hookRepS) (migrate_sessions_text s) =
      migrate_sessions_text s ∧
    runSub (patM hookPat hookRepC) (migrate_capture_text s) =
      migrate_capture_text s :=
  ⟨scanM_false_runSub _ _ (by rw [scanM_patM_eq]; exact noHook_sessions s),
   scanM_false_runSub _ _ (by rw [scanM_patM_eq]; exact noHook_capture s)⟩

/-- C3 witness at the counterexample input itself. -/
theorem c3_hook_step_idempotent_witness :
    runSub (patM hookPat hookRepS) (migrate_sessions_text fixNested) =
      migrate_sessions_text fixNested ∧
    runSub (patM hookPat hookRepC) (migrate_capture_text fixNested) =
      migrate_capture_text fixNested :=
  c3_hook_step_idempotent fixNested

theorem applyAll_append (l1 l2 : List Matcher) (s : Text) :
    applyAll (l1 ++ l2) s = applyAll l2 (applyAll l1 s) := by
  simp [applyAll, List.foldl_append]

set_option maxRecDepth 400000 in
/-- C9: a legacy dispatch call matching the ADD_SESSION_SCREENSHOT pattern
    (and likewise ADD_SESSION_AUDIO_SEGMENT) is rewritten with the captured
    payload object literal spliced twice — once with `.sessionId` appended,
    once as the second argument — as `dupRep` shows; the side conditions say
    the payload is a nonempty brace-free object body and that no other pass
    fires on the fixture or on the rewritten output. -/
theorem c9_payload_duplicated (x : Text) (hne : x ≠ [])
    (hnb : ∀ c ∈ x, notBrace c = true)
    (h1 : noFire (sessionsPasses.take 14) (scrFix x))
    (h2 : scanM (capB (preP "ADD_SESSION_AUDIO_SEGMENT") false
      (dupRep "addAudioSegment")) none
      (dupRep "addScreenshot" (braced x)) = false)
    (h3 : noFire (sessionsPasses.take 14) (audFix x))
    (h4 : scanM (capB (preP "ADD_SESSION_SCREENSHOT") false
      (dupRep "addScreenshot")) none (audFix x) = false) :
    migrate_sessions_text (scrFix x) = dupRep "addScreenshot" (braced x) ∧
    migrate_sessions_text (audFix x) = dupRep "addAudioSegment" (braced x) := by
  have hsplit : sessionsPasses = sessionsPasses.take 14 ++
      [capB (preP "ADD_SESSION_SCREENSHOT") false (dupRep "addScreenshot"),
       capB (preP "ADD_SESSION_AUDIO_SEGMENT") false
         (dupRep "addAudioSegment")] := rfl
  have hfne : scrFix x ≠ [] := by
    intro h
    exact absurd (List.append_eq_nil.mp h).1 (by decide)
  have hfne2 : audFix x ≠ [] := by
    intro h
    exact absurd (List.append_eq_nil.mp h).1 (by decide)
  constructor
  · show applyAll sessionsPasses (scrFix x) = _
    rw [hsplit, applyAll_append, noFire_applyAll _ _ h1]
    simp only [applyAll, List.foldl_cons, List.foldl_nil]
    rw [runSub_single_fire _ _ _ ';' hfne
      (capB_eval (preP "ADD_SESSION_SCREENSHOT") (dupRep "addScreenshot") x
        (scrFix x) none rfl hne hnb)]
    exact scanM_false_runSub _ _ h2
  · show applyAll sessionsPasses (audFix x) = _
    rw [hsplit, applyAll_append, noFire_applyAll _ _ h3]
    simp only [applyAll, List.foldl_cons, List.foldl_nil]
    rw [scanM_false_runSub _ _ h4]
    exact runSub_single_fire _ _ _ ';' hfne2
      (capB_eval (preP "ADD_SESSION_AUDIO_SEGMENT") (dupRep "addAudioSegment")
        x (audFix x) none rfl hne hnb)

set_option maxRecDepth 400000 in
/-- C9 witness at the concrete payload body `p: 1`. -/
theorem c9_payload_duplicated_witness :
    migrate_sessions_text (scrFix (sl "p: 1")) =
      dupRep "addScreenshot" (braced (sl "p: 1")) ∧
    migrate_sessions_text (audFix (sl "p: 1")) =
      dupRep "addAudioSegment" (braced (sl "p: 1")) :=
  c9_payload_duplicated (sl "p: 1") (by decide) (by decide) (by decide)
    (by decide) (by decide) (by decide)

/- Claim theorems on the CLI and file model. -/

/-- C4: a missing positional argument or an unknown component name leaves
    every file untouched, reads and writes nothing, prints a message, and
    exits with a nonzero status. -/
theorem c4_bad_invocation (argv : List String) (fs : FS)
    (h : argv.length < 2 ∨
      ∀ c, argv.get? 1 = some c → c ≠ "SessionsZone" ∧ c ≠ "CaptureZone") :
    (mainEntry argv fs).fs = fs ∧ (mainEntry argv fs).exitCode ≠ 0 ∧
    (mainEntry argv fs).stdout ≠ [] ∧ (mainEntry argv fs).reads = [] ∧
    (mainEntry argv fs).writes = [] := by
  match argv with
  | [] => simp [mainEntry]
  | [a] => simp [mainEntry]
  | a :: comp :: rest =>
    have hcomp : comp ≠ "SessionsZone" ∧ comp ≠ "CaptureZone" := by
      rcases h with h | h
      · simp at h; omega
      · exact h comp rfl
    simp [mainEntry, hcomp.1, hcomp.2]

/-- C4 witness at a concrete bad invocation. -/
theorem c4_bad_invocation_witness :
    (mainEntry ["migrate_component.py", "Foo"] fsNone).fs = fsNone ∧
    (mainEntry ["migrate_component.py", "Foo"] fsNone).exitCode ≠ 0 ∧
    (mainEntry ["migrate_component.py", "Foo"] fsNone).stdout ≠ [] ∧
    (mainEntry ["migrate_component.py", "Foo"] fsNone).reads = [] ∧
    (mainEntry ["migrate_component.py", "Foo"] fsNone).writes = [] :=
  c4_bad_invocation ["migrate_component.py", "Foo"] fsNone
    (Or.inr (by intro c hc; simp at hc; subst hc; exact ⟨by decide, by decide⟩))

/-- C5: when the target file cannot be read, the run aborts before the file
    is opened for writing — nothing is written and the file system is
    returned unchanged, with a nonzero exit code. -/
theorem c5_read_failure (a : String) (rest : List String) (fs : FS)
    (h1 : fs sessionsPath = none) (h2 : fs capturePath = none) :
    mainEntry (a :: "SessionsZone" :: rest) fs =
      ⟨fs, 1, [], [sessionsPath], []⟩ ∧
    mainEntry (a :: "CaptureZone" :: rest) fs =
      ⟨fs, 1, [], [capturePath], []⟩ := by
  constructor
  · simp [mainEntry, migrate_sessions_zone, migrateFile, h1]
  · simp [mainEntry, migrate_capture_zone, migrateFile, h2]

/-- C5 witness on the empty file system. -/
theorem c5_read_failure_witness :
    mainEntry ["migrate_component.py", "SessionsZone"] fsNone =
      ⟨fsNone, 1, [], [sessionsPath], []⟩ ∧
    mainEntry ["migrate_component.py", "CaptureZone"] fsNone =
      ⟨fsNone, 1, [], [capturePath], []⟩ :=
  c5_read_failure "migrate_component.py" [] fsNone rfl rfl

/-- C6: a successful run reads the full target file, applies the fixed
    ordered substitution sequence to its contents, writes the transformed
    text back to the same path, prints the success message, and exits 0. -/
theorem c6_success (a : String) (rest : List String) (fs : FS)
    (c d : Text) (h1 : fs sessionsPath = some c)
    (h2 : fs capturePath = some d) :
    mainEntry (a :: "SessionsZone" :: rest) fs =
      ⟨fsWrite fs sessionsPath (migrate_sessions_text c), 0,
        ["✅ Migrated " ++ sessionsPath], [sessionsPath], [sessionsPath]⟩ ∧
    mainEntry (a :: "CaptureZone" :: rest) fs =
      ⟨fsWrite fs capturePath (migrate_capture_text d), 0,
        ["✅ Migrated " ++ capturePath], [capturePath], [capturePath]⟩ := by
  constructor
  · simp [mainEntry, migrate_sessions_zone, migrateFile, h1]
  · simp [mainEntry, migrate_capture_zone, migrateFile, h2]

/-- C6 witness on a file system holding both target files. -/
theorem c6_success_witness :
    mainEntry ["migrate_component.py", "SessionsZone"] fsBoth =
      ⟨fsWrite fsBoth sessionsPath (migrate_sessions_text (sl "const x = 1;")),
        0, ["✅ Migrated " ++ sessionsPath], [sessionsPath], [sessionsPath]⟩ ∧
    mainEntry ["migrate_component.py", "CaptureZone"] fsBoth =
      ⟨fsWrite fsBoth capturePath (migrate_capture_text (sl "let y = 2;")),
        0, ["✅ Migrated " ++ capturePath], [capturePath], [capturePath]⟩ :=
  c6_success "migrate_component.py" [] fsBoth (sl "const x = 1;")
    (sl "let y = 2;") (by decide) (by decide)

/-- C7: each supported invocation touches only its hardcoded path: every
    other file keeps its contents, only that path is read, and every write
    goes to that path. -/
theorem c7_frame (a : String) (rest : List String) (fs : FS) :
    ((∀ q, q ≠ sessionsPath →
        (mainEntry (a :: "SessionsZone" :: rest) fs).fs q = fs q) ∧
      (mainEntry (a :: "SessionsZone" :: rest) fs).reads = [sessionsPath] ∧
      (∀ w ∈ (mainEntry (a :: "SessionsZone" :: rest) fs).writes,
        w = sessionsPath) ∧
      (∀ c, fs sessionsPath = some c →
        (mainEntry (a :: "SessionsZone" :: rest) fs).writes = [sessionsPath])) ∧
    ((∀ q, q ≠ capturePath →
        (mainEntry (a :: "CaptureZone" :: rest) fs).fs q = fs q) ∧
      (mainEntry (a :: "CaptureZone" :: rest) fs).reads = [capturePath] ∧
      (∀ w ∈ (mainEntry (a :: "CaptureZone" :: rest) fs).writes,
        w = capturePath) ∧
      (∀ c, fs capturePath = some c →
        (mainEntry (a :: "CaptureZone" :: rest) fs).writes = [capturePath])) := by
  constructor
  · cases hs : fs sessionsPath with
    | none =>
      refine ⟨fun q hq => ?_, ?_, ?_, fun c hcon => ?_⟩
      · simp [mainEntry, migrate_sessions_zone, migrateFile, hs]
      · simp [mainEntry, migrate_sessions_zone, migrateFile, hs]
      · simp [mainEntry, migrate_sessions_zone, migrateFile, hs]
      · simp at hcon
    | some c =>
      refine ⟨fun q hq => ?_, ?_, ?_, fun c hcon => ?_⟩
      · simp [mainEntry, migrate_sessions_zone, migrateFile, hs, fsWrite, hq]
      · simp [mainEntry, migrate_sessions_zone, migrateFile, hs]
      · simp [mainEntry, migrate_sessions_zone, migrateFile, hs]
      · simp [mainEntry, migrate_sessions_zone, migrateFile, hs]
  · cases hc : fs capturePath with
    | none =>
      refine ⟨fun q hq => ?_, ?_, ?_, fun c hcon => ?_⟩
      · simp [mainEntry, migrate_capture_zone, migrateFile, hc]
      · simp [mainEntry, migrate_capture_zone, migrateFile, hc]
      · simp [mainEntry, migrate_capture_zone, migrateFile, hc]
      · simp at hcon
    | some c =>
      refine ⟨fun q hq => ?_, ?_, ?_, fun c hcon => ?_⟩
      · simp [mainEntry, migrate_capture_zone, migrateFile, hc, fsWrite, hq]
      · simp [mainEntry, migrate_capture_zone, migrateFile, hc]
      · simp [mainEntry, migrate_capture_zone, migrateFile, hc]
      · simp [mainEntry, migrate_capture_zone, migrateFile, hc]

/-- C7 witness: a CaptureZone file is untouched by a SessionsZone run. -/
theorem c7_frame_witness :
    (mainEntry ["migrate_component.py", "SessionsZone"] fsBoth).fs
      capturePath = fsBoth capturePath :=
  (c7_frame "migrate_component.py" [] fsBoth).1.1 capturePath (by decide)

/-- C10: the transformation is deterministic — two runs over file systems
    agreeing on the target file's contents write back equal contents. -/
theorem c10_deterministic (fs1 fs2 : FS) (c d : Text)
    (h1 : fs1 sessionsPath = some c) (h2 : fs2 sessionsPath = some c)
    (h3 : fs1 capturePath = some d) (h4 : fs2 capturePath = some d) :
    (migrate_sessions_zone fs1).fs sessionsPath =
      (migrate_sessions_zone fs2).fs sessionsPath ∧
    (migrate_capture_zone fs1).fs capturePath =
      (migrate_capture_zone fs2).fs capturePath := by
  constructor
  · simp [migrate_sessions_zone, migrateFile, h1, h2, fsWrite]
  · simp [migrate_capture_zone, migrateFile, h3, h4, fsWrite]

/-- C10 witness at two distinct file systems with equal target contents. -/
theorem c10_deterministic_witness :
    (migrate_sessions_zone fsBoth).fs sessionsPath =
      (migrate_sessions_zone (fun q =>
        if q = sessionsPath then some (sl "const x = 1;")
        else if q = capturePath then some (sl "let y = 2;")
        else some (sl "other"))).fs sessionsPath ∧
    (migrate_capture_zone fsBoth).fs capturePath =
      (migrate_capture_zone (fun q =>
        if q = sessionsPath then some (sl "const x = 1;")
        else if q = capturePath then some (sl "let y = 2;")
        else some (sl "other"))).fs capturePath :=
  c10_deterministic fsBoth _ (sl "const x = 1;") (sl "let y = 2;")
    (by decide) (by decide) (by decide) (by decide)

/-- C8: on an input where none of the selected migration's literal or regex
    patterns occurs, the written content equals the content read. -/
theorem c8_identity (s : Text) :
    (noFire sessionsPasses s → migrate_sessions_text s = s) ∧
    (noFire capturePasses s → migrate_capture_text s = s) :=
  ⟨fun h => noFire_applyAll sessionsPasses s h,
   fun h => noFire_applyAll capturePasses s h⟩

/-- C8 witness on a pattern-free input. -/
theorem c8_identity_witness :
    migrate_sessions_text (sl "hello world") = sl "hello world" ∧
    migrate_capture_text (sl "hello world") = sl "hello world" :=
  ⟨(c8_identity (sl "hello world")).1 (by decide),
   (c8_identity (sl "hello world")).2 (by decide)⟩

end MigrateComponent
